import Mathlib

/-!
CAN bus plugin (`canbus.c`, `canbus.h`): ring buffers, drain step, baud table.

A shallow embedding of the queueing core of the plugin.

Conventions of the embedding

* `uint8_t` and `uint32_t` values are natural numbers; every place where the C
  code narrows a value to such a type carries an explicit `% 256` or `% 2 ^ 32`.
* A C function that updates `*ringbuffer` (or the file's static variables) takes
  the old value and returns the new one next to its C return value.
* Calls that leave the file (`can_put`, `canbus.dequeue_rx`, the host hooks) are
  recorded, in call order, in a list of `Event`s; what they answer is a
  parameter of the function that makes the call.
* The result is an `Option`: `none` stands for an access to `message[i]` with
  `i` outside `0 .. CANBUS_BUFFER_LEN - 1`, which C leaves undefined.
* `printf` diagnostics are not part of the model.
-/

namespace Canbus

/-! ## Data model (`canbus.h`) -/

/-- Number of slots of a ring buffer: `#define CANBUS_BUFFER_LEN 8`. -/
abbrev CANBUS_BUFFER_LEN : Nat := 8

/-- Direction of a ring buffer: `canbus_direction_t`. -/
inductive canbus_direction_t where
  | dir_RX
  | dir_TX
  deriving DecidableEq, Repr

/-- A CAN frame: `canbus_message_t` (`id` is a `uint32_t`, `len` a `uint8_t`,
`data` the eight payload bytes). -/
structure canbus_message_t where
  id : Nat
  len : Nat
  data : List Nat
  deriving DecidableEq, Repr, Inhabited

/-- Persisted settings: `canbus_settings_t`. -/
structure canbus_settings_t where
  baud_rate : Nat
  deriving DecidableEq, Repr

/-- A ring buffer: `canbus_buffer_t`. `head` and `tail` are `uint8_t` cursors,
`message` is the array of `CANBUS_BUFFER_LEN` slots. -/
structure canbus_buffer_t where
  head : Nat
  tail : Nat
  dir : canbus_direction_t
  message : Fin CANBUS_BUFFER_LEN → canbus_message_t

/-- A call that leaves `canbus.c`, as it appears in the trace of a function. -/
inductive Event where
  | can_put (m : canbus_message_t)
  | dequeue_rx (m : canbus_message_t)
  | on_execute_realtime
  | get_elapsed_ticks
  | can_rx_pending
  | can_get
  | can_start (rate : Nat)
  | can_stop
  | memcpy_from_nvs (address : Nat)
  | memcpy_to_nvs (address : Nat) (value : Nat)
  | HAL_Delay (ms : Nat)
  | on_report_options (newopt : Bool)
  | stream_write (text : String)
  | nvs_alloc (size : Nat)
  | settings_register
  | protocol_enqueue_rt_command
  deriving DecidableEq, Repr

/-! ## Ring buffer operations (`canbus.c`) -/

/-- Length of a ring buffer: `queue_get_len`. The arithmetic is done in `int`
and the result narrowed to `uint8_t`. -/
def queue_get_len (ringbuffer : canbus_buffer_t) : Nat :=
  let head := ringbuffer.head
  let tail := ringbuffer.tail
  if head > tail then
    (((head : Int) - (tail : Int)) % 256).toNat
  else if tail > head then
    (((head : Int) + (CANBUS_BUFFER_LEN : Int) - (tail : Int)) % 256).toNat
  else
    0

/-- Enqueue: `queue_put_msg`. Returns the updated buffer and the C return
value (`1` stored, `0` buffer full). -/
def queue_put_msg (ringbuffer : canbus_buffer_t) (message : canbus_message_t) :
    Option (canbus_buffer_t × Nat) :=
  let next_head := ((ringbuffer.head + 1) % CANBUS_BUFFER_LEN) % 256
  if next_head ≠ ringbuffer.tail then
    if h : ringbuffer.head < CANBUS_BUFFER_LEN then
      some ({ ringbuffer with
                message := Function.update ringbuffer.message ⟨ringbuffer.head, h⟩ message
                head := next_head }, 1)
    else
      none
  else
    some (ringbuffer, 0)

/-- Drain one message: `queue_get_msg`. `can_put` is the answer of the driver's
transmit call (`0` means rejected), `dequeue_rx` the registered RX handler,
whose answer the code discards. Returns the updated buffer, the C return value
and the calls made. -/
def queue_get_msg (can_put : canbus_message_t → Nat) (dequeue_rx : canbus_message_t → Bool)
    (ringbuffer : canbus_buffer_t) : Option (canbus_buffer_t × Nat × List Event) :=
  if ringbuffer.head ≠ ringbuffer.tail then
    if h : ringbuffer.tail < CANBUS_BUFFER_LEN then
      let message := ringbuffer.message ⟨ringbuffer.tail, h⟩
      let advanced : canbus_buffer_t :=
        { ringbuffer with tail := ((ringbuffer.tail + 1) % CANBUS_BUFFER_LEN) % 256 }
      if ringbuffer.dir = canbus_direction_t.dir_TX then
        if can_put message = 0 then
          some (ringbuffer, 0, [Event.can_put message])
        else
          some (advanced, 1, [Event.can_put message])
      else
        let _ := dequeue_rx message
        some (advanced, 1, [Event.dequeue_rx message])
    else
      none
  else
    some (ringbuffer, 0, [])

/-- The slot of a buffer at index `i` (taken modulo `CANBUS_BUFFER_LEN`, so that
it is `message[i]` for every `i < CANBUS_BUFFER_LEN`). -/
def slot (ringbuffer : canbus_buffer_t) (i : Nat) : canbus_message_t :=
  ringbuffer.message ⟨i % CANBUS_BUFFER_LEN, Nat.mod_lt i (by decide)⟩

/-- The index-range predicate of a buffer: both cursors address a slot. -/
def canbus_buffer_t.inRange (ringbuffer : canbus_buffer_t) : Prop :=
  ringbuffer.head < CANBUS_BUFFER_LEN ∧ ringbuffer.tail < CANBUS_BUFFER_LEN

instance (ringbuffer : canbus_buffer_t) : Decidable ringbuffer.inRange := by
  unfold canbus_buffer_t.inRange
  infer_instance

/-- The `n` slots starting at index `t`, in cursor order. -/
def slotsFrom (ringbuffer : canbus_buffer_t) : Nat → Nat → List canbus_message_t
  | _, 0 => []
  | t, n + 1 => slot ringbuffer t :: slotsFrom ringbuffer (t + 1) n

/-- The queued, not yet consumed messages of a buffer, oldest first: the
`queue_get_len` slots starting at `tail`. -/
def pending (ringbuffer : canbus_buffer_t) : List canbus_message_t :=
  slotsFrom ringbuffer ringbuffer.tail (queue_get_len ringbuffer)

/-! ## Sequences of calls on one buffer -/

/-- One call on a ring buffer: an enqueue of `m`, or a drain during which the
driver's transmit answers `can_put` and the RX handler answers `dequeue_rx`. -/
inductive queue_call where
  | put (m : canbus_message_t)
  | get (can_put : canbus_message_t → Nat) (dequeue_rx : canbus_message_t → Bool)

/-- Run a sequence of calls on a buffer, one after the other. Returns the final
buffer, the C return value of every call (in call order) and the calls that
left the file (in call order). -/
def run_calls : canbus_buffer_t → List queue_call →
    Option (canbus_buffer_t × List (queue_call × Nat) × List Event)
  | b, [] => some (b, [], [])
  | b, queue_call.put m :: cs =>
    match queue_put_msg b m with
    | none => none
    | some (b1, r) =>
      match run_calls b1 cs with
      | none => none
      | some (b2, rs, ev) => some (b2, (queue_call.put m, r) :: rs, ev)
  | b, queue_call.get p d :: cs =>
    match queue_get_msg p d b with
    | none => none
    | some (b1, r, e) =>
      match run_calls b1 cs with
      | none => none
      | some (b2, rs, ev) => some (b2, (queue_call.get p d, r) :: rs, e ++ ev)

/-- The messages whose enqueue returned `1`, in call order. -/
def enqueued : List (queue_call × Nat) → List canbus_message_t
  | [] => []
  | (queue_call.put m, r) :: rs => if r = 1 then m :: enqueued rs else enqueued rs
  | (queue_call.get _ _, _) :: rs => enqueued rs

/-- Number of enqueue calls that returned `1`. -/
def puts_ok : List (queue_call × Nat) → Nat
  | [] => 0
  | (queue_call.put _, r) :: rs => (if r = 1 then 1 else 0) + puts_ok rs
  | (queue_call.get _ _, _) :: rs => puts_ok rs

/-- Number of drain calls that returned `1`. -/
def gets_ok : List (queue_call × Nat) → Nat
  | [] => 0
  | (queue_call.put _, _) :: rs => gets_ok rs
  | (queue_call.get _ _, r) :: rs => (if r = 1 then 1 else 0) + gets_ok rs

/-- The messages handed to the RX handler, in call order. -/
def handed : List Event → List canbus_message_t
  | [] => []
  | Event.dequeue_rx m :: ev => m :: handed ev
  | _ :: ev => handed ev

/-- The messages presented to the driver's transmit, in call order. -/
def transmitted : List Event → List canbus_message_t
  | [] => []
  | Event.can_put m :: ev => m :: transmitted ev
  | _ :: ev => transmitted ev

/-! ## Static state and the public enqueue functions -/

/-- Value of a function pointer of type `on_execute_realtime_ptr`: the null
pointer, a handler defined outside this file, or this file's
`canbus_poll_realtime`. -/
inductive on_execute_realtime_ptr where
  | null
  | outside (id : Nat)
  | canbus_poll_realtime
  deriving DecidableEq, Repr

/-- Value of a function pointer of type `on_report_options_ptr`: the null
pointer, a handler defined outside this file, or this file's
`onReportOptions`. -/
inductive on_report_options_ptr where
  | null
  | outside (id : Nat)
  | onReportOptions
  deriving DecidableEq, Repr

/-- The two hooks of the host's `grbl` structure that `canbus_init` chains
into. -/
structure grbl_t where
  on_report_options : on_report_options_ptr
  on_execute_realtime : on_execute_realtime_ptr
  deriving DecidableEq, Repr

/-- The static variables of `canbus.c`, with the function-local
`static uint32_t last_ms` of `canbus_poll_realtime`. The static pointers
`on_report_options` and `on_execute_realtime` hold the handlers that the
events `Event.on_report_options` and `Event.on_execute_realtime` call. -/
structure canbus_state where
  nvs_address : Nat
  canbus_settings : canbus_settings_t
  isEnabled : Bool
  tx_buffer : canbus_buffer_t
  rx_buffer : canbus_buffer_t
  last_ms : Nat
  on_report_options : on_report_options_ptr := on_report_options_ptr.null
  on_execute_realtime : on_execute_realtime_ptr := on_execute_realtime_ptr.null

/-- The initial buffers `{0, .dir = dir_TX}` and `{0, .dir = dir_RX}`. -/
def initial_buffer (dir : canbus_direction_t) : canbus_buffer_t :=
  { head := 0, tail := 0, dir := dir, message := fun _ => { id := 0, len := 0, data := [0, 0, 0, 0, 0, 0, 0, 0] } }

/-- What the static initialisers and the `const` direction field guarantee at
every point of a run: each buffer keeps its direction and its cursors address
slots. -/
def canbus_state.wf (s : canbus_state) : Prop :=
  s.tx_buffer.inRange ∧ s.rx_buffer.inRange ∧
  s.tx_buffer.dir = canbus_direction_t.dir_TX ∧ s.rx_buffer.dir = canbus_direction_t.dir_RX

/-- Enqueue for transmission: `canbus_queue_tx`. -/
def canbus_queue_tx (s : canbus_state) (message : canbus_message_t) : Option (canbus_state × Nat) :=
  match queue_put_msg s.tx_buffer message with
  | none => none
  | some (b, r) => some ({ s with tx_buffer := b }, r)

/-- Enqueue a received frame: `canbus_queue_rx`. -/
def canbus_queue_rx (s : canbus_state) (message : canbus_message_t) : Option (canbus_state × Nat) :=
  match queue_put_msg s.rx_buffer message with
  | none => none
  | some (b, r) => some ({ s with rx_buffer := b }, r)

/-! ## Baud table -/

/-- Index of the default rate: `#define DEFAULT_BAUDRATE 0`. -/
abbrev DEFAULT_BAUDRATE : Nat := 0

/-- The supported rates: `static const uint32_t baud[]`. -/
def baud : List Nat := [125000, 250000, 500000, 1000000]

/-- The `do { if (baud[--idx] == rate) return idx; } while (idx);` loop of
`get_baudrate`, entered with `idx`. Entering with `0` would wrap `idx` around
and index outside the table. -/
def get_baudrate_loop (rate : Nat) : Nat → Option Nat
  | 0 => none
  | idx + 1 =>
    match baud[idx]? with
    | none => none
    | some r =>
      if r = rate then some idx
      else if idx ≠ 0 then get_baudrate_loop rate idx
      else some DEFAULT_BAUDRATE

/-- Index of a rate in the table: `get_baudrate`; the loop starts at
`sizeof(baud) / sizeof(uint32_t)`. -/
def get_baudrate (rate : Nat) : Option Nat :=
  get_baudrate_loop rate baud.length

/-! ## The drain step -/

/-- A call into the plugin made by code outside the file. -/
inductive api_call where
  | queue_tx (m : canbus_message_t)
  | queue_rx (m : canbus_message_t)

/-- Perform a sequence of calls into the plugin; their return values go to the
outside caller. -/
def run_api : canbus_state → List api_call → Option canbus_state
  | s, [] => some s
  | s, api_call.queue_tx m :: cs =>
    match canbus_queue_tx s m with
    | none => none
    | some (s1, _) => run_api s1 cs
  | s, api_call.queue_rx m :: cs =>
    match canbus_queue_rx s m with
    | none => none
    | some (s1, _) => run_api s1 cs

/-- What the code outside the file does during one call of
`canbus_poll_realtime`: the calls into the plugin made by the previously
installed real-time handler, the tick count, whether the driver flags pending
RX data, the frames the driver passes to `canbus_queue_rx` during `can_get`,
and the answers of the driver's transmit and of the RX handler. -/
structure poll_env where
  on_execute_realtime : List api_call
  get_elapsed_ticks : Nat
  can_rx_pending : Bool
  can_get : List canbus_message_t
  can_put : canbus_message_t → Nat
  dequeue_rx : canbus_message_t → Bool

/-- The part of `canbus_poll_realtime` before the rate limit: the previous
handler runs, the tick count is read and pending RX data is fetched. -/
def poll_prologue (env : poll_env) (s : canbus_state) : Option (canbus_state × List Event) :=
  match run_api s env.on_execute_realtime with
  | none => none
  | some s1 =>
    if env.can_rx_pending then
      match run_api s1 (env.can_get.map api_call.queue_rx) with
      | none => none
      | some s2 =>
        some (s2, [Event.on_execute_realtime, Event.get_elapsed_ticks, Event.can_rx_pending,
                   Event.can_get])
    else
      some (s1, [Event.on_execute_realtime, Event.get_elapsed_ticks, Event.can_rx_pending])

/-- The tick hook: `canbus_poll_realtime`. -/
def canbus_poll_realtime (env : poll_env) (s : canbus_state) : Option (canbus_state × List Event) :=
  match poll_prologue env s with
  | none => none
  | some (s2, ev) =>
    let ms := env.get_elapsed_ticks % 2 ^ 32
    if ms = s2.last_ms then
      some (s2, ev)
    else
      let tx :=
        if queue_get_len s2.tx_buffer ≠ 0 then
          queue_get_msg env.can_put env.dequeue_rx s2.tx_buffer
        else
          some (s2.tx_buffer, 0, [])
      match tx with
      | none => none
      | some (txb, _, evt) =>
        let rx :=
          if queue_get_len s2.rx_buffer ≠ 0 then
            queue_get_msg env.can_put env.dequeue_rx s2.rx_buffer
          else
            some (s2.rx_buffer, 0, [])
        match rx with
        | none => none
        | some (rxb, _, evr) =>
          some ({ s2 with tx_buffer := txb, rx_buffer := rxb, last_ms := ms }, ev ++ evt ++ evr)

/-- The calls made by `canbus_poll_realtime` before the rate limit. -/
def prologue_events (env : poll_env) : List Event :=
  [Event.on_execute_realtime, Event.get_elapsed_ticks, Event.can_rx_pending] ++
    (if env.can_rx_pending then [Event.can_get] else [])

/-! ## Lifecycle and settings -/

/-- Whether the bus is usable: `canbus_enabled`. -/
def canbus_enabled (s : canbus_state) : Bool :=
  s.isEnabled

/-- Stop the transceiver: `canbus_stop`. -/
def canbus_stop (s : canbus_state) : canbus_state × Nat × List Event :=
  (s, 1, [Event.can_stop])

/-- Start the transceiver: `canbus_start`. `can_start` is the answer of the
driver's start call for a rate (`0` means failure). The driver is handed
`canbus_settings.baud_rate`; the argument `baud` is not read. -/
def canbus_start (can_start : Nat → Nat) (s : canbus_state) (baud : Nat) :
    canbus_state × Nat × List Event :=
  let _ := baud
  if can_start s.canbus_settings.baud_rate = 0 then
    ({ s with isEnabled := false }, 1, [Event.can_start s.canbus_settings.baud_rate])
  else
    ({ s with isEnabled := true }, 0, [Event.can_start s.canbus_settings.baud_rate])

/-- Result of a transfer from persisted storage. The header that declares
`nvs_transfer_result_t` is not among the sources; `canbus.c` names only
`NVS_TransferResult_OK`. -/
inductive nvs_transfer_result_t where
  | NVS_TransferResult_OK
  | other (code : Nat)
  deriving DecidableEq, Repr

/-- Status returned by a settings callback. The header that declares
`status_code_t` is not among the sources; `canbus.c` names only `Status_OK`. -/
inductive status_code_t where
  | Status_OK
  | other (code : Nat)
  deriving DecidableEq, Repr

/-- Restore the default settings: `canbus_settings_restore`. The object
`canbus_settings` is written to storage as its single `uint32_t`. -/
def canbus_settings_restore (s : canbus_state) : canbus_state × List Event :=
  let s1 := { s with canbus_settings := { baud_rate := baud.get ⟨DEFAULT_BAUDRATE, by decide⟩ } }
  (s1, [Event.memcpy_to_nvs s1.nvs_address s1.canbus_settings.baud_rate])

/-- Load the settings and start the transceiver: `canbus_settings_load`.
`memcpy_from_nvs` is the answer of the storage read for an address and the old
content of the destination: the result code and the content it leaves in
`canbus_settings`. -/
def canbus_settings_load (memcpy_from_nvs : Nat → Nat → nvs_transfer_result_t × Nat)
    (can_start : Nat → Nat) (s : canbus_state) : canbus_state × List Event :=
  let read := memcpy_from_nvs s.nvs_address s.canbus_settings.baud_rate
  let s1 := { s with canbus_settings := { baud_rate := read.2 % 2 ^ 32 } }
  let restored :=
    if read.1 ≠ nvs_transfer_result_t.NVS_TransferResult_OK then
      canbus_settings_restore s1
    else
      (s1, [])
  let started := canbus_start can_start restored.1 restored.1.canbus_settings.baud_rate
  (started.1, [Event.memcpy_from_nvs s.nvs_address] ++ restored.2 ++ started.2.2)

/-- Save the settings: `canbus_settings_save`. The source address of the copy
is `&canbus`, the object holding the RX handler pointer; `canbus_object` is the
value of its first `sizeof(canbus_settings_t)` bytes. -/
def canbus_settings_save (canbus_object : Nat) (s : canbus_state) : canbus_state × List Event :=
  (s, [Event.HAL_Delay 100, Event.memcpy_to_nvs s.nvs_address canbus_object])

/-- Setting callback for the rate: `canbus_set_baud`. `none` stands for an
index outside the table `baud`. -/
def canbus_set_baud (can_start : Nat → Nat) (s : canbus_state) (id : Nat) (value : Nat) :
    Option (canbus_state × status_code_t × List Event) :=
  let _ := id
  match baud[value % 2 ^ 32]? with
  | none => none
  | some rate =>
    let s1 := { s with canbus_settings := { baud_rate := rate } }
    let stopped := canbus_stop s1
    let started := canbus_start can_start stopped.1 stopped.1.canbus_settings.baud_rate
    some (started.1, status_code_t.Status_OK, stopped.2.2 ++ started.2.2)

/-- Setting callback reading the rate index: `canbus_get_baud`. -/
def canbus_get_baud (s : canbus_state) (setting : Nat) : Option Nat :=
  let _ := setting
  get_baudrate s.canbus_settings.baud_rate

/-- The report hook: `onReportOptions`. `ASCII_EOL` is the host's line end. -/
def onReportOptions (ASCII_EOL : String) (newopt : Bool) : List Event :=
  [Event.on_report_options newopt] ++
    (if !newopt then [Event.stream_write ("[PLUGIN:CANBUS v0.01]" ++ ASCII_EOL)] else [])

/-- Plugin start-up: `canbus_init`. `nvs_alloc` is the answer of the storage
allocator for a size, `sizeof_modbus_settings_t` the size the code asks for. -/
def canbus_init (nvs_alloc : Nat → Nat) (sizeof_modbus_settings_t : Nat) (grbl : grbl_t)
    (s : canbus_state) : grbl_t × canbus_state × List Event :=
  let s1 := { s with nvs_address := nvs_alloc sizeof_modbus_settings_t }
  if s1.nvs_address ≠ 0 then
    ({ on_report_options := on_report_options_ptr.onReportOptions
       on_execute_realtime := on_execute_realtime_ptr.canbus_poll_realtime },
     { s1 with on_report_options := grbl.on_report_options
               on_execute_realtime := grbl.on_execute_realtime },
     [Event.nvs_alloc sizeof_modbus_settings_t, Event.settings_register])
  else
    (grbl, s1, [Event.nvs_alloc sizeof_modbus_settings_t, Event.protocol_enqueue_rt_command])

/-- The handlers reached through the static pointer `on_execute_realtime`
during a trace that starts in state `s`, in call order. -/
def realtime_handlers_called (s : canbus_state) : List Event → List on_execute_realtime_ptr
  | [] => []
  | Event.on_execute_realtime :: ev => s.on_execute_realtime :: realtime_handlers_called s ev
  | _ :: ev => realtime_handlers_called s ev

/-- The handlers reached through the static pointer `on_report_options` during
a trace that starts in state `s`, with the flag passed, in call order. -/
def report_handlers_called (s : canbus_state) : List Event → List (on_report_options_ptr × Bool)
  | [] => []
  | Event.on_report_options newopt :: ev =>
    (s.on_report_options, newopt) :: report_handlers_called s ev
  | _ :: ev => report_handlers_called s ev

/-- The initial static state of the file: empty buffers, `isEnabled = false`,
everything else zero. -/
def initial_state : canbus_state :=
  { nvs_address := 0, canbus_settings := { baud_rate := 0 }, isEnabled := false,
    tx_buffer := initial_buffer canbus_direction_t.dir_TX,
    rx_buffer := initial_buffer canbus_direction_t.dir_RX, last_ms := 0 }

/-! ## Example data -/

/-- A frame with identifier `i`, no payload bytes used. -/
def frame (i : Nat) : canbus_message_t :=
  { id := i, len := 0, data := [0, 0, 0, 0, 0, 0, 0, 0] }

/-- A buffer of direction `dir` with the given cursors and every slot holding
`frame 0`. -/
def buffer_at (dir : canbus_direction_t) (head tail : Nat) : canbus_buffer_t :=
  { head := head, tail := tail, dir := dir, message := fun _ => frame 0 }

/-- A state with the given buffers and `last_ms`, settings at the default rate. -/
def state_at (tx rx : canbus_buffer_t) (last_ms : Nat) : canbus_state :=
  { nvs_address := 0, canbus_settings := { baud_rate := 125000 }, isEnabled := false,
    tx_buffer := tx, rx_buffer := rx, last_ms := last_ms }

/-- An environment at tick count `ticks` in which the driver flags RX data and
passes in `frame 7`, the previous handler queues `frame 9` for transmission,
the driver accepts every frame and the handler answers `true`. -/
def busy_env (ticks : Nat) : poll_env :=
  { on_execute_realtime := [api_call.queue_tx (frame 9)], get_elapsed_ticks := ticks,
    can_rx_pending := true, can_get := [frame 7], can_put := fun _ => 1,
    dequeue_rx := fun _ => true }

/-- A state with two queued TX frames, two queued RX frames and `last_ms = 41`. -/
def sample_state : canbus_state :=
  state_at (buffer_at canbus_direction_t.dir_TX 3 1) (buffer_at canbus_direction_t.dir_RX 0 6) 41

/-- A state whose settings hold 250000 baud, with storage address 64. -/
def configured_state : canbus_state :=
  { initial_state with nvs_address := 64, canbus_settings := { baud_rate := 250000 } }

/-- A storage read that fails with code 0 and leaves the destination as it was. -/
def failing_read (_address : Nat) (old : Nat) : nvs_transfer_result_t × Nat :=
  (nvs_transfer_result_t.other 0, old)

/-- A storage read that succeeds and delivers `value`. -/
def read_of (value : Nat) (_address : Nat) (_old : Nat) : nvs_transfer_result_t × Nat :=
  (nvs_transfer_result_t.NVS_TransferResult_OK, value)

/-- Host hooks before the plugin starts: handlers 1 and 2 outside this file. -/
def host_grbl : grbl_t :=
  { on_report_options := on_report_options_ptr.outside 1
    on_execute_realtime := on_execute_realtime_ptr.outside 2 }

/-- The static state after `canbus_init` with storage address 64 on `host_grbl`. -/
def hosted_state : canbus_state :=
  (canbus_init (fun _ => 64) 8 host_grbl initial_state).2.1

/-! ## Basic facts -/

theorem slot_eq (b : canbus_buffer_t) (i : Nat) (h : i < CANBUS_BUFFER_LEN) :
    slot b i = b.message ⟨i, h⟩ := by
  unfold slot
  congr 1
  exact Fin.ext (Nat.mod_eq_of_lt h)

theorem queue_get_len_eq (b : canbus_buffer_t) (h : b.inRange) :
    queue_get_len b = if b.head ≥ b.tail then b.head - b.tail else b.head + 8 - b.tail := by
  obtain ⟨hh, ht⟩ := h
  unfold queue_get_len
  simp only [CANBUS_BUFFER_LEN, Nat.cast_ofNat] at *
  split_ifs <;> omega

theorem queue_put_msg_ok (b : canbus_buffer_t) (m : canbus_message_t)
    (hh : b.head < CANBUS_BUFFER_LEN) (hnf : (b.head + 1) % 8 ≠ b.tail) :
    queue_put_msg b m =
      some ({ b with message := Function.update b.message ⟨b.head, hh⟩ m
                     head := (b.head + 1) % 8 }, 1) := by
  have h256 : (b.head + 1) % 8 % 256 = (b.head + 1) % 8 := by omega
  unfold queue_put_msg
  simp only [h256]
  rw [if_pos hnf, dif_pos hh]

theorem queue_put_msg_full (b : canbus_buffer_t) (m : canbus_message_t)
    (hf : (b.head + 1) % 8 = b.tail) : queue_put_msg b m = some (b, 0) := by
  have h256 : (b.head + 1) % 8 % 256 = (b.head + 1) % 8 := by omega
  unfold queue_put_msg
  simp only [h256]
  rw [if_neg (by simpa using hf)]

theorem queue_get_msg_tx_reject (p : canbus_message_t → Nat) (d : canbus_message_t → Bool)
    (b : canbus_buffer_t) (hne : b.head ≠ b.tail) (ht : b.tail < CANBUS_BUFFER_LEN)
    (hdir : b.dir = canbus_direction_t.dir_TX) (hrej : p (slot b b.tail) = 0) :
    queue_get_msg p d b = some (b, 0, [Event.can_put (slot b b.tail)]) := by
  rw [slot_eq b _ ht] at hrej ⊢
  unfold queue_get_msg
  rw [if_pos hne, dif_pos ht]
  simp only []
  rw [if_pos hdir, if_pos hrej]

theorem queue_get_msg_tx_accept (p : canbus_message_t → Nat) (d : canbus_message_t → Bool)
    (b : canbus_buffer_t) (hne : b.head ≠ b.tail) (ht : b.tail < CANBUS_BUFFER_LEN)
    (hdir : b.dir = canbus_direction_t.dir_TX) (hacc : p (slot b b.tail) ≠ 0) :
    queue_get_msg p d b =
      some ({ b with tail := (b.tail + 1) % 8 }, 1, [Event.can_put (slot b b.tail)]) := by
  have h256 : (b.tail + 1) % 8 % 256 = (b.tail + 1) % 8 := by omega
  rw [slot_eq b _ ht] at hacc ⊢
  unfold queue_get_msg
  rw [if_pos hne, dif_pos ht]
  simp only [h256]
  rw [if_pos hdir, if_neg hacc]

theorem queue_get_msg_rx (p : canbus_message_t → Nat) (d : canbus_message_t → Bool)
    (b : canbus_buffer_t) (hne : b.head ≠ b.tail) (ht : b.tail < CANBUS_BUFFER_LEN)
    (hdir : b.dir = canbus_direction_t.dir_RX) :
    queue_get_msg p d b =
      some ({ b with tail := (b.tail + 1) % 8 }, 1, [Event.dequeue_rx (slot b b.tail)]) := by
  have h256 : (b.tail + 1) % 8 % 256 = (b.tail + 1) % 8 := by omega
  have hd : ¬ b.dir = canbus_direction_t.dir_TX := by rw [hdir]; decide
  rw [slot_eq b _ ht]
  unfold queue_get_msg
  rw [if_pos hne, dif_pos ht]
  simp only [h256]
  rw [if_neg hd]

/-! ## The queued messages under enqueue and drain -/

theorem slotsFrom_ext (b c : canbus_buffer_t) (n : Nat) :
    ∀ t u : Nat, (∀ i, i < n → slot b (t + i) = slot c (u + i)) →
      slotsFrom b t n = slotsFrom c u n := by
  induction n with
  | zero => intro t u _; rfl
  | succ n ih =>
    intro t u h
    unfold slotsFrom
    have h0 := h 0 (Nat.succ_pos n)
    simp only [Nat.add_zero] at h0
    rw [h0, ih (t + 1) (u + 1)]
    intro i hi
    have := h (i + 1) (Nat.succ_lt_succ hi)
    rwa [show t + (i + 1) = t + 1 + i by omega, show u + (i + 1) = u + 1 + i by omega] at this

theorem slotsFrom_snoc (b : canbus_buffer_t) (n : Nat) :
    ∀ t : Nat, slotsFrom b t (n + 1) = slotsFrom b t n ++ [slot b (t + n)] := by
  induction n with
  | zero => intro t; rfl
  | succ n ih =>
    intro t
    rw [slotsFrom, ih (t + 1), slotsFrom]
    rw [show t + 1 + n = t + (n + 1) by omega]
    rfl

theorem slot_mod (b : canbus_buffer_t) (i j : Nat) (h : i % 8 = j % 8) : slot b i = slot b j := by
  unfold slot
  congr 1
  exact Fin.ext h

theorem slot_put_same (b : canbus_buffer_t) (m : canbus_message_t) (hh : b.head < CANBUS_BUFFER_LEN)
    (nh i : Nat) (h : i % 8 = b.head) :
    slot { b with message := Function.update b.message ⟨b.head, hh⟩ m, head := nh } i = m := by
  unfold slot
  have : (⟨i % CANBUS_BUFFER_LEN, Nat.mod_lt i (by decide)⟩ : Fin CANBUS_BUFFER_LEN) = ⟨b.head, hh⟩ :=
    Fin.ext h
  dsimp only
  rw [this, Function.update_same]

theorem slot_put_other (b : canbus_buffer_t) (m : canbus_message_t) (hh : b.head < CANBUS_BUFFER_LEN)
    (nh i : Nat) (h : i % 8 ≠ b.head) :
    slot { b with message := Function.update b.message ⟨b.head, hh⟩ m, head := nh } i = slot b i := by
  unfold slot
  have : (⟨i % CANBUS_BUFFER_LEN, Nat.mod_lt i (by decide)⟩ : Fin CANBUS_BUFFER_LEN) ≠ ⟨b.head, hh⟩ := by
    intro hc
    exact h (congrArg Fin.val hc)
  dsimp only
  rw [Function.update_noteq this]

/-- An accepted enqueue appends the message to the queued messages. -/
theorem pending_put (b : canbus_buffer_t) (m : canbus_message_t) (hr : b.inRange)
    (hnf : (b.head + 1) % 8 ≠ b.tail) :
    pending { b with message := Function.update b.message ⟨b.head, hr.1⟩ m
                     head := (b.head + 1) % 8 } = pending b ++ [m] := by
  obtain ⟨hh, ht⟩ := hr
  have hlen := queue_get_len_eq b ⟨hh, ht⟩
  have hlen1 := queue_get_len_eq
    { b with message := Function.update b.message ⟨b.head, hh⟩ m, head := (b.head + 1) % 8 }
    ⟨Nat.mod_lt _ (by decide), ht⟩
  simp only [CANBUS_BUFFER_LEN] at hh ht
  dsimp only at hlen1
  have hl : queue_get_len { b with message := Function.update b.message ⟨b.head, hh⟩ m
                                   head := (b.head + 1) % 8 } = queue_get_len b + 1 := by
    rw [hlen1, hlen]
    split_ifs <;> omega
  unfold pending
  rw [hl, slotsFrom_snoc]
  dsimp only
  congr 1
  · apply slotsFrom_ext
    intro i hi
    apply slot_put_other
    rw [hlen] at hi
    split_ifs at hi <;> omega
  · congr 1
    apply slot_put_same
    rw [hlen]
    split_ifs <;> omega

/-- A drain that advances `tail` removes the oldest queued message. -/
theorem pending_get (b : canbus_buffer_t) (hr : b.inRange) (hne : b.head ≠ b.tail) :
    pending b = slot b b.tail :: pending { b with tail := (b.tail + 1) % 8 } := by
  obtain ⟨hh, ht⟩ := hr
  have hlen := queue_get_len_eq b ⟨hh, ht⟩
  have hlen1 := queue_get_len_eq { b with tail := (b.tail + 1) % 8 }
    ⟨hh, Nat.mod_lt _ (by decide)⟩
  simp only [CANBUS_BUFFER_LEN] at hh ht
  dsimp only at hlen1
  have hl : queue_get_len b = queue_get_len { b with tail := (b.tail + 1) % 8 } + 1 := by
    rw [hlen1, hlen]
    split_ifs <;> omega
  unfold pending
  rw [hl, slotsFrom]
  dsimp only
  congr 1
  apply slotsFrom_ext
  intro i _
  show slot b (b.tail + 1 + i) = slot b ((b.tail + 1) % 8 + i)
  apply slot_mod
  omega

/-! ## One call on a buffer within range -/

theorem queue_put_msg_step (b : canbus_buffer_t) (m : canbus_message_t) (hr : b.inRange) :
    ∃ b1 r, queue_put_msg b m = some (b1, r) ∧ b1.inRange ∧ b1.dir = b.dir ∧
      queue_get_len b1 = queue_get_len b + (if r = 1 then 1 else 0) ∧
      pending b1 = pending b ++ (if r = 1 then [m] else []) ∧
      (r = 1 ↔ queue_get_len b < 7) ∧ b1.tail = b.tail := by
  have hlen := queue_get_len_eq b hr
  have hh : b.head < 8 := hr.1
  have ht : b.tail < 8 := hr.2
  by_cases hf : (b.head + 1) % 8 = b.tail
  · have h7 : queue_get_len b = 7 := by
      rw [hlen]
      split_ifs <;> omega
    refine ⟨b, 0, queue_put_msg_full b m hf, hr, rfl, by simp, by simp, ?_, rfl⟩
    rw [h7]
    decide
  · have hlen1 := queue_get_len_eq
      { b with message := Function.update b.message ⟨b.head, hr.1⟩ m, head := (b.head + 1) % 8 }
      ⟨Nat.mod_lt _ (by decide), hr.2⟩
    dsimp only at hlen1
    have h7 : queue_get_len b < 7 := by
      rw [hlen]
      split_ifs <;> omega
    refine ⟨_, 1, queue_put_msg_ok b m hr.1 hf, ⟨Nat.mod_lt _ (by decide), hr.2⟩, rfl, ?_, ?_, ?_,
      rfl⟩
    · rw [hlen1, hlen]
      split_ifs <;> omega
    · simpa using pending_put b m hr hf
    · simp [h7]

theorem queue_get_msg_of_empty (p : canbus_message_t → Nat) (d : canbus_message_t → Bool)
    (b : canbus_buffer_t) (he : b.head = b.tail) :
    queue_get_msg p d b = some (b, 0, []) := by
  unfold queue_get_msg
  rw [if_neg (by simpa using he)]

theorem handed_append (e f : List Event) : handed (e ++ f) = handed e ++ handed f := by
  induction e with
  | nil => rfl
  | cons x e ih => cases x <;> simp [handed, ih]

theorem queue_get_msg_step (p : canbus_message_t → Nat) (d : canbus_message_t → Bool)
    (b : canbus_buffer_t) (hr : b.inRange) :
    ∃ b1 r e, queue_get_msg p d b = some (b1, r, e) ∧ b1.inRange ∧ b1.dir = b.dir ∧
      queue_get_len b1 + (if r = 1 then 1 else 0) = queue_get_len b ∧
      (b.dir = canbus_direction_t.dir_RX → pending b = handed e ++ pending b1) ∧
      b1.head = b.head ∧ b1.message = b.message := by
  have hlen := queue_get_len_eq b hr
  by_cases he : b.head = b.tail
  · exact ⟨b, 0, [], queue_get_msg_of_empty p d b he, hr, rfl, by simp, fun _ => rfl, rfl, rfl⟩
  · have hr1 : canbus_buffer_t.inRange { b with tail := (b.tail + 1) % 8 } :=
      ⟨hr.1, Nat.mod_lt _ (by decide)⟩
    have hlen1 := queue_get_len_eq { b with tail := (b.tail + 1) % 8 } hr1
    dsimp only at hlen1
    have hl : queue_get_len { b with tail := (b.tail + 1) % 8 } + 1 = queue_get_len b := by
      obtain ⟨hh, ht⟩ := hr
      simp only [CANBUS_BUFFER_LEN] at hh ht
      rw [hlen1, hlen]
      split_ifs <;> omega
    have hcases : b.dir = canbus_direction_t.dir_RX ∨ b.dir = canbus_direction_t.dir_TX := by
      cases b.dir
      · exact Or.inl rfl
      · exact Or.inr rfl
    rcases hcases with hdir | hdir
    · refine ⟨_, 1, _, queue_get_msg_rx p d b he hr.2 hdir, hr1, rfl, by simpa using hl,
        fun _ => ?_, rfl, rfl⟩
      simpa [handed] using pending_get b hr he
    · have hnrx : ¬ b.dir = canbus_direction_t.dir_RX := by rw [hdir]; decide
      by_cases hrej : p (slot b b.tail) = 0
      · exact ⟨b, 0, _, queue_get_msg_tx_reject p d b he hr.2 hdir hrej, hr, rfl, by simp,
          fun h => absurd h hnrx, rfl, rfl⟩
      · exact ⟨_, 1, _, queue_get_msg_tx_accept p d b he hr.2 hdir hrej, hr1, rfl,
          by simpa using hl, fun h => absurd h hnrx, rfl, rfl⟩

/-! ## Sequences of calls -/

theorem run_calls_invariant (cs : List queue_call) :
    ∀ b : canbus_buffer_t, b.inRange →
      ∃ b1 rs ev, run_calls b cs = some (b1, rs, ev) ∧ b1.inRange ∧ b1.dir = b.dir ∧
        queue_get_len b1 + gets_ok rs = queue_get_len b + puts_ok rs ∧
        (b.dir = canbus_direction_t.dir_RX →
          pending b ++ enqueued rs = handed ev ++ pending b1) := by
  induction cs with
  | nil =>
    intro b hr
    exact ⟨b, [], [], rfl, hr, rfl, rfl, fun _ => by simp [enqueued, handed]⟩
  | cons c cs ih =>
    intro b hr
    cases c with
    | put m =>
      obtain ⟨b1, r, hput, hr1, hd1, hl1, hp1, _, _⟩ := queue_put_msg_step b m hr
      obtain ⟨b2, rs, ev, hrun, hr2, hd2, hl2, hp2⟩ := ih b1 hr1
      refine ⟨b2, (queue_call.put m, r) :: rs, ev, ?_, hr2, hd2.trans hd1, ?_, ?_⟩
      · simp only [run_calls, hput, hrun]
      · simp only [puts_ok, gets_ok]
        omega
      · intro hrx
        have := hp2 (hd1.trans hrx)
        rw [hp1] at this
        simp only [enqueued]
        split_ifs with h1
        · simpa [h1] using this
        · simpa [h1] using this
    | get p d =>
      obtain ⟨b1, r, e, hget, hr1, hd1, hl1, hp1, _, _⟩ := queue_get_msg_step p d b hr
      obtain ⟨b2, rs, ev, hrun, hr2, hd2, hl2, hp2⟩ := ih b1 hr1
      refine ⟨b2, (queue_call.get p d, r) :: rs, e ++ ev, ?_, hr2, hd2.trans hd1, ?_, ?_⟩
      · simp only [run_calls, hget, hrun]
      · simp only [puts_ok, gets_ok]
        omega
      · intro hrx
        have h2 := hp2 (hd1.trans hrx)
        rw [hp1 hrx, handed_append]
        simp only [enqueued, List.append_assoc]
        rw [h2]

theorem run_calls_append (cs ds : List queue_call) :
    ∀ b : canbus_buffer_t, run_calls b (cs ++ ds) =
      match run_calls b cs with
      | none => none
      | some (b1, rs, ev) =>
        match run_calls b1 ds with
        | none => none
        | some (b2, rs2, ev2) => some (b2, rs ++ rs2, ev ++ ev2) := by
  induction cs with
  | nil =>
    intro b
    simp only [List.nil_append, run_calls]
    cases run_calls b ds with
    | none => rfl
    | some x => rfl
  | cons c cs ih =>
    intro b
    cases c with
    | put m =>
      simp only [List.cons_append, run_calls, List.append_eq]
      cases queue_put_msg b m with
      | none => rfl
      | some x =>
        obtain ⟨b1, r⟩ := x
        simp only [ih b1]
        cases run_calls b1 cs with
        | none => rfl
        | some y =>
          obtain ⟨b2, rs, ev⟩ := y
          simp only []
          cases run_calls b2 ds with
          | none => rfl
          | some z => rfl
    | get p d =>
      simp only [List.cons_append, run_calls, List.append_eq]
      cases queue_get_msg p d b with
      | none => rfl
      | some x =>
        obtain ⟨b1, r, e⟩ := x
        simp only [ih b1]
        cases run_calls b1 cs with
        | none => rfl
        | some y =>
          obtain ⟨b2, rs, ev⟩ := y
          simp only []
          cases run_calls b2 ds with
          | none => rfl
          | some z => simp

theorem queue_get_len_pos (b : canbus_buffer_t) (hr : b.inRange) (hne : b.head ≠ b.tail) :
    queue_get_len b ≠ 0 := by
  have hh : b.head < 8 := hr.1
  have ht : b.tail < 8 := hr.2
  rw [queue_get_len_eq b hr]
  split_ifs <;> omega

theorem queue_get_len_zero (b : canbus_buffer_t) (he : b.head = b.tail) : queue_get_len b = 0 := by
  unfold queue_get_len
  simp [he]

theorem full_of_len (b : canbus_buffer_t) (hr : b.inRange) (h7 : queue_get_len b = 7) :
    (b.head + 1) % 8 = b.tail := by
  have hh : b.head < 8 := hr.1
  have ht : b.tail < 8 := hr.2
  rw [queue_get_len_eq b hr] at h7
  split_ifs at h7 <;> omega

/-- Enqueues that fit are all accepted and queue up in call order. -/
theorem run_calls_puts (ms : List canbus_message_t) :
    ∀ b : canbus_buffer_t, b.inRange → queue_get_len b + ms.length ≤ 7 →
      ∃ b1, run_calls b (ms.map queue_call.put) =
          some (b1, ms.map (fun m => (queue_call.put m, 1)), []) ∧
        b1.inRange ∧ b1.dir = b.dir ∧ pending b1 = pending b ++ ms ∧
        queue_get_len b1 = queue_get_len b + ms.length ∧ b1.tail = b.tail := by
  induction ms with
  | nil =>
    intro b hr _
    exact ⟨b, rfl, hr, rfl, by simp, rfl, rfl⟩
  | cons m ms ih =>
    intro b hr hlen
    simp only [List.length_cons] at hlen
    obtain ⟨b1, r, hput, hr1, hd1, hl1, hp1, hiff, ht1⟩ := queue_put_msg_step b m hr
    have hr_one : r = 1 := hiff.2 (by omega)
    subst hr_one
    simp only [if_true] at hl1 hp1
    obtain ⟨b2, hrun, hr2, hd2, hp2, hl2, ht2⟩ := ih b1 hr1 (by omega)
    refine ⟨b2, ?_, hr2, hd2.trans hd1, ?_, ?_, ht2.trans ht1⟩
    · simp only [List.map_cons, run_calls, hput, hrun]
    · rw [hp2, hp1]
      simp
    · simp only [List.length_cons]
      omega

/-- Draining an RX buffer as many times as it has queued messages hands all of
them to the handler, oldest first, and leaves the buffer empty. -/
theorem run_calls_gets_rx (gs : List ((canbus_message_t → Nat) × (canbus_message_t → Bool))) :
    ∀ b : canbus_buffer_t, b.inRange → b.dir = canbus_direction_t.dir_RX →
      gs.length = queue_get_len b →
      ∃ b1, run_calls b (gs.map (fun g => queue_call.get g.1 g.2)) =
          some (b1, gs.map (fun g => (queue_call.get g.1 g.2, 1)),
            (pending b).map Event.dequeue_rx) ∧
        b1.inRange ∧ b1.dir = b.dir ∧ b1.head = b1.tail := by
  induction gs with
  | nil =>
    intro b hr _ hlen
    have h0 : queue_get_len b = 0 := by simpa using hlen.symm
    have he : b.head = b.tail := by
      by_contra hne
      exact queue_get_len_pos b hr hne h0
    refine ⟨b, ?_, hr, rfl, he⟩
    simp [run_calls, pending, h0, slotsFrom]
  | cons g gs ih =>
    intro b hr hdir hlen
    simp only [List.length_cons] at hlen
    have hne : b.head ≠ b.tail := by
      intro he
      rw [queue_get_len_zero b he] at hlen
      omega
    have hget := queue_get_msg_rx g.1 g.2 b hne hr.2 hdir
    have hr1 : canbus_buffer_t.inRange { b with tail := (b.tail + 1) % 8 } :=
      ⟨hr.1, Nat.mod_lt _ (by decide)⟩
    have hpend := pending_get b hr hne
    obtain ⟨_, _, _, hget2, _, _, hl, _, _, _⟩ := queue_get_msg_step g.1 g.2 b hr
    rw [hget] at hget2
    simp only [Option.some.injEq, Prod.mk.injEq] at hget2
    obtain ⟨hb, hrr, _⟩ := hget2
    subst hb hrr
    simp only [if_true] at hl
    obtain ⟨b2, hrun, hr2, hd2, he2⟩ := ih _ hr1 hdir (by omega)
    refine ⟨b2, ?_, hr2, hd2, he2⟩
    simp only [List.map_cons, run_calls, hget, hrun, hpend, List.singleton_append]

/-- Drains of a non-empty TX buffer that the driver rejects change nothing and
present the message at `tail` each time. -/
theorem run_calls_rejects (gs : List ((canbus_message_t → Nat) × (canbus_message_t → Bool)))
    (b : canbus_buffer_t) (hne : b.head ≠ b.tail) (ht : b.tail < CANBUS_BUFFER_LEN)
    (hdir : b.dir = canbus_direction_t.dir_TX) :
    (∀ g, g ∈ gs → g.1 (slot b b.tail) = 0) →
      run_calls b (gs.map (fun g => queue_call.get g.1 g.2)) =
        some (b, gs.map (fun g => (queue_call.get g.1 g.2, 0)),
          List.replicate gs.length (Event.can_put (slot b b.tail))) := by
  induction gs with
  | nil => intro _; rfl
  | cons g gs ih =>
    intro hrej
    have hg := queue_get_msg_tx_reject g.1 g.2 b hne ht hdir (hrej g (List.mem_cons_self g gs))
    have hrest := ih (fun x hx => hrej x (List.mem_cons_of_mem g hx))
    simp only [List.map_cons, run_calls, hg, hrest, List.length_cons, List.replicate_succ,
      List.singleton_append]

/-! ## The drain step -/

theorem transmitted_append (e f : List Event) :
    transmitted (e ++ f) = transmitted e ++ transmitted f := by
  induction e with
  | nil => rfl
  | cons x e ih => cases x <;> simp [transmitted, ih]

theorem canbus_queue_tx_step (s : canbus_state) (m : canbus_message_t) (hwf : s.wf) :
    ∃ s1 r, canbus_queue_tx s m = some (s1, r) ∧ s1.wf ∧
      s1.tx_buffer.tail = s.tx_buffer.tail ∧ s1.rx_buffer = s.rx_buffer ∧
      s1.last_ms = s.last_ms ∧
      queue_get_len s.tx_buffer ≤ queue_get_len s1.tx_buffer := by
  obtain ⟨htx, hrx, hdt, hdr⟩ := hwf
  obtain ⟨b1, r, hput, hr1, hd1, hl1, _, _, ht1⟩ := queue_put_msg_step s.tx_buffer m htx
  refine ⟨{ s with tx_buffer := b1 }, r, ?_, ⟨hr1, hrx, hd1.trans hdt, hdr⟩, ht1, rfl, rfl, ?_⟩
  · simp only [canbus_queue_tx, hput]
  · show queue_get_len s.tx_buffer ≤ queue_get_len b1
    omega

theorem canbus_queue_rx_step (s : canbus_state) (m : canbus_message_t) (hwf : s.wf) :
    ∃ s1 r, canbus_queue_rx s m = some (s1, r) ∧ s1.wf ∧
      s1.rx_buffer.tail = s.rx_buffer.tail ∧ s1.tx_buffer = s.tx_buffer ∧
      s1.last_ms = s.last_ms ∧
      queue_get_len s.rx_buffer ≤ queue_get_len s1.rx_buffer := by
  obtain ⟨htx, hrx, hdt, hdr⟩ := hwf
  obtain ⟨b1, r, hput, hr1, hd1, hl1, _, _, ht1⟩ := queue_put_msg_step s.rx_buffer m hrx
  refine ⟨{ s with rx_buffer := b1 }, r, ?_, ⟨htx, hr1, hdt, hd1.trans hdr⟩, ht1, rfl, rfl, ?_⟩
  · simp only [canbus_queue_rx, hput]
  · show queue_get_len s.rx_buffer ≤ queue_get_len b1
    omega

/-- Calls into the plugin from outside keep the state well formed, touch
neither a `tail` nor `last_ms`, and shorten no buffer. -/
theorem run_api_spec (cs : List api_call) :
    ∀ s : canbus_state, s.wf →
      ∃ s1, run_api s cs = some s1 ∧ s1.wf ∧
        s1.tx_buffer.tail = s.tx_buffer.tail ∧ s1.rx_buffer.tail = s.rx_buffer.tail ∧
        s1.last_ms = s.last_ms ∧
        queue_get_len s.tx_buffer ≤ queue_get_len s1.tx_buffer ∧
        queue_get_len s.rx_buffer ≤ queue_get_len s1.rx_buffer := by
  induction cs with
  | nil =>
    intro s hwf
    exact ⟨s, rfl, hwf, rfl, rfl, rfl, le_refl _, le_refl _⟩
  | cons c cs ih =>
    intro s hwf
    cases c with
    | queue_tx m =>
      obtain ⟨s1, r, hq, hwf1, ht1, hrx1, hms1, hl1⟩ := canbus_queue_tx_step s m hwf
      obtain ⟨s2, hrun, hwf2, htt, hrt, hms2, hlt, hlr⟩ := ih s1 hwf1
      refine ⟨s2, ?_, hwf2, htt.trans ht1, ?_, hms2.trans hms1, le_trans hl1 hlt, ?_⟩
      · simp only [run_api, hq, hrun]
      · rw [hrt, hrx1]
      · rw [hrx1] at hlr
        exact hlr
    | queue_rx m =>
      obtain ⟨s1, r, hq, hwf1, ht1, htx1, hms1, hl1⟩ := canbus_queue_rx_step s m hwf
      obtain ⟨s2, hrun, hwf2, htt, hrt, hms2, hlt, hlr⟩ := ih s1 hwf1
      refine ⟨s2, ?_, hwf2, ?_, hrt.trans ht1, hms2.trans hms1, ?_, le_trans hl1 hlr⟩
      · simp only [run_api, hq, hrun]
      · rw [htt, htx1]
      · rw [htx1] at hlt
        exact hlt

theorem poll_prologue_spec (env : poll_env) (s : canbus_state) (hwf : s.wf) :
    ∃ s2, poll_prologue env s = some (s2, prologue_events env) ∧ s2.wf ∧
      s2.tx_buffer.tail = s.tx_buffer.tail ∧ s2.rx_buffer.tail = s.rx_buffer.tail ∧
      s2.last_ms = s.last_ms ∧
      queue_get_len s.tx_buffer ≤ queue_get_len s2.tx_buffer ∧
      queue_get_len s.rx_buffer ≤ queue_get_len s2.rx_buffer ∧
      (env.on_execute_realtime = [] → (env.can_rx_pending = false ∨ env.can_get = []) →
        s2 = s) := by
  obtain ⟨s1, hrun1, hwf1, ht1, hr1, hms1, hlt1, hlr1⟩ := run_api_spec env.on_execute_realtime s hwf
  by_cases hp : env.can_rx_pending = true
  · obtain ⟨s2, hrun2, hwf2, ht2, hr2, hms2, hlt2, hlr2⟩ :=
      run_api_spec (env.can_get.map api_call.queue_rx) s1 hwf1
    refine ⟨s2, ?_, hwf2, ht2.trans ht1, hr2.trans hr1, hms2.trans hms1,
      le_trans hlt1 hlt2, le_trans hlr1 hlr2, ?_⟩
    · simp [poll_prologue, prologue_events, hrun1, hp, hrun2]
    · intro h1 h2
      rw [h1] at hrun1
      rcases h2 with h2 | h2
      · rw [h2] at hp
        exact absurd hp (by decide)
      · rw [h2] at hrun2
        simp only [run_api, List.map_nil, Option.some.injEq] at hrun1 hrun2
        rw [← hrun2, ← hrun1]
  · refine ⟨s1, ?_, hwf1, ht1, hr1, hms1, hlt1, hlr1, ?_⟩
    · simp [poll_prologue, prologue_events, hrun1, hp]
    · intro h1 _
      rw [h1] at hrun1
      simp only [run_api, Option.some.injEq] at hrun1
      exact hrun1.symm

theorem prologue_events_quiet (env : poll_env) :
    transmitted (prologue_events env) = [] ∧ handed (prologue_events env) = [] := by
  unfold prologue_events
  cases env.can_rx_pending <;> simp [transmitted, handed]

/-- The guarded TX drain of `canbus_poll_realtime`: one transmit call for a
non-empty buffer, none for an empty one. -/
theorem guarded_drain_tx (p : canbus_message_t → Nat) (d : canbus_message_t → Bool)
    (b : canbus_buffer_t) (hr : b.inRange) (hdir : b.dir = canbus_direction_t.dir_TX) :
    ∃ b1 r, (if queue_get_len b ≠ 0 then queue_get_msg p d b else some (b, 0, [])) =
        some (b1, r, if b.head ≠ b.tail then [Event.can_put (slot b b.tail)] else []) ∧
      b1.inRange ∧ b1.dir = b.dir ∧ queue_get_len b1 ≤ queue_get_len b ∧
      queue_get_len b ≤ queue_get_len b1 + 1 := by
  by_cases he : b.head = b.tail
  · refine ⟨b, 0, ?_, hr, rfl, le_refl _, Nat.le_succ _⟩
    simp [queue_get_len_zero b he, he]
  · obtain ⟨b1, r, e, hget, hr1, hd1, hl, _, _, _⟩ := queue_get_msg_step p d b hr
    have hev : e = [Event.can_put (slot b b.tail)] := by
      by_cases hrej : p (slot b b.tail) = 0
      · rw [queue_get_msg_tx_reject p d b he hr.2 hdir hrej] at hget
        simp only [Option.some.injEq, Prod.mk.injEq] at hget
        exact hget.2.2.symm
      · rw [queue_get_msg_tx_accept p d b he hr.2 hdir hrej] at hget
        simp only [Option.some.injEq, Prod.mk.injEq] at hget
        exact hget.2.2.symm
    refine ⟨b1, r, ?_, hr1, hd1, ?_, ?_⟩
    · rw [if_pos (queue_get_len_pos b hr he), if_pos he, hget, hev]
    · split_ifs at hl <;> omega
    · split_ifs at hl <;> omega

/-- The guarded RX drain of `canbus_poll_realtime`: one handler call for a
non-empty buffer, none for an empty one. -/
theorem guarded_drain_rx (p : canbus_message_t → Nat) (d : canbus_message_t → Bool)
    (b : canbus_buffer_t) (hr : b.inRange) (hdir : b.dir = canbus_direction_t.dir_RX) :
    ∃ b1 r, (if queue_get_len b ≠ 0 then queue_get_msg p d b else some (b, 0, [])) =
        some (b1, r, if b.head ≠ b.tail then [Event.dequeue_rx (slot b b.tail)] else []) ∧
      b1.inRange ∧ b1.dir = b.dir ∧ queue_get_len b1 ≤ queue_get_len b ∧
      queue_get_len b ≤ queue_get_len b1 + 1 := by
  by_cases he : b.head = b.tail
  · refine ⟨b, 0, ?_, hr, rfl, le_refl _, Nat.le_succ _⟩
    simp [queue_get_len_zero b he, he]
  · obtain ⟨b1, r, e, hget, hr1, hd1, hl, _, _, _⟩ := queue_get_msg_step p d b hr
    have hev : e = [Event.dequeue_rx (slot b b.tail)] := by
      rw [queue_get_msg_rx p d b he hr.2 hdir] at hget
      simp only [Option.some.injEq, Prod.mk.injEq] at hget
      exact hget.2.2.symm
    refine ⟨b1, r, ?_, hr1, hd1, ?_, ?_⟩
    · rw [if_pos (queue_get_len_pos b hr he), if_pos he, hget, hev]
    · split_ifs at hl <;> omega
    · split_ifs at hl <;> omega

/-! ## Hooks -/

theorem realtime_handlers_called_append (s : canbus_state) (e f : List Event) :
    realtime_handlers_called s (e ++ f) =
      realtime_handlers_called s e ++ realtime_handlers_called s f := by
  induction e with
  | nil => rfl
  | cons x e ih => cases x <;> simp [realtime_handlers_called, ih]

theorem realtime_handlers_called_prologue (s : canbus_state) (env : poll_env) :
    realtime_handlers_called s (prologue_events env) = [s.on_execute_realtime] := by
  unfold prologue_events
  cases env.can_rx_pending <;> simp [realtime_handlers_called]

theorem prologue_events_head (env : poll_env) :
    ∃ ev, prologue_events env = Event.on_execute_realtime :: ev := by
  unfold prologue_events
  exact ⟨_, rfl⟩

theorem run_api_keeps_hooks (cs : List api_call) :
    ∀ s s1 : canbus_state, run_api s cs = some s1 →
      s1.on_execute_realtime = s.on_execute_realtime ∧
        s1.on_report_options = s.on_report_options := by
  induction cs with
  | nil =>
    intro s s1 h
    simp only [run_api, Option.some.injEq] at h
    subst h
    exact ⟨rfl, rfl⟩
  | cons c cs ih =>
    intro s s1 h
    cases c with
    | queue_tx m =>
      simp only [run_api, canbus_queue_tx] at h
      cases hq : queue_put_msg s.tx_buffer m with
      | none => simp [hq] at h
      | some x =>
        simp only [hq] at h
        have k := ih _ s1 h
        exact k
    | queue_rx m =>
      simp only [run_api, canbus_queue_rx] at h
      cases hq : queue_put_msg s.rx_buffer m with
      | none => simp [hq] at h
      | some x =>
        simp only [hq] at h
        have k := ih _ s1 h
        exact k

theorem poll_prologue_keeps_hooks (env : poll_env) (s s2 : canbus_state) (ev : List Event)
    (h : poll_prologue env s = some (s2, ev)) :
    s2.on_execute_realtime = s.on_execute_realtime ∧
      s2.on_report_options = s.on_report_options := by
  unfold poll_prologue at h
  cases h1 : run_api s env.on_execute_realtime with
  | none => simp [h1] at h
  | some s1 =>
    have k1 := run_api_keeps_hooks _ s s1 h1
    simp only [h1] at h
    by_cases hp : env.can_rx_pending = true
    · simp only [hp, if_true] at h
      cases h2 : run_api s1 (env.can_get.map api_call.queue_rx) with
      | none => simp [h2] at h
      | some s3 =>
        have k2 := run_api_keeps_hooks _ s1 s3 h2
        simp only [h2, Option.some.injEq, Prod.mk.injEq] at h
        rw [← h.1]
        exact ⟨k2.1.trans k1.1, k2.2.trans k1.2⟩
    · simp only [hp, Bool.false_eq_true, if_false, Option.some.injEq, Prod.mk.injEq] at h
      rw [← h.1]
      exact k1

/-- One call of `canbus_poll_realtime` on a well-formed state returns; its
trace is the prologue followed by calls that do not go through the static
pointer `on_execute_realtime`; the state stays well formed and the static
hook pointers are as before. -/
theorem canbus_poll_realtime_trace (env : poll_env) (s : canbus_state) (hwf : s.wf) :
    ∃ s1 ev, canbus_poll_realtime env s = some (s1, prologue_events env ++ ev) ∧
      realtime_handlers_called s ev = [] ∧ s1.wf ∧
      s1.on_execute_realtime = s.on_execute_realtime ∧
      s1.on_report_options = s.on_report_options := by
  obtain ⟨s2, hpro, hwf2, _, _, _, _, _, _⟩ := poll_prologue_spec env s hwf
  have hk := poll_prologue_keeps_hooks env s s2 _ hpro
  by_cases hms : env.get_elapsed_ticks % 2 ^ 32 = s2.last_ms
  · refine ⟨s2, [], ?_, rfl, hwf2, hk.1, hk.2⟩
    simp only [canbus_poll_realtime, hpro, List.append_nil]
    rw [if_pos hms]
  · obtain ⟨htx, hrx, hdt, hdr⟩ := hwf2
    obtain ⟨txb, rt, htxd, htr, htd, _, _⟩ :=
      guarded_drain_tx env.can_put env.dequeue_rx s2.tx_buffer htx hdt
    obtain ⟨rxb, rr, hrxd, hrr, hrd, _, _⟩ :=
      guarded_drain_rx env.can_put env.dequeue_rx s2.rx_buffer hrx hdr
    refine ⟨{ s2 with tx_buffer := txb, rx_buffer := rxb,
                      last_ms := env.get_elapsed_ticks % 2 ^ 32 },
      (if s2.tx_buffer.head ≠ s2.tx_buffer.tail then
          [Event.can_put (slot s2.tx_buffer s2.tx_buffer.tail)] else []) ++
        (if s2.rx_buffer.head ≠ s2.rx_buffer.tail then
          [Event.dequeue_rx (slot s2.rx_buffer s2.rx_buffer.tail)] else []),
      ?_, ?_, ⟨htr, hrr, htd.trans hdt, hrd.trans hdr⟩, hk.1, hk.2⟩
    · simp only [canbus_poll_realtime, hpro]
      rw [if_neg hms]
      simp only [htxd, hrxd, List.append_assoc]
    · rw [realtime_handlers_called_append]
      split_ifs <;> simp [realtime_handlers_called]

theorem queue_put_msg_frame (b : canbus_buffer_t) (m : canbus_message_t) (hr : b.inRange) :
    ∃ b1 r, queue_put_msg b m = some (b1, r) ∧ b1.tail = b.tail ∧ b1.dir = b.dir ∧
      (∀ i : Fin CANBUS_BUFFER_LEN, i.val ≠ b.head → b1.message i = b.message i) ∧
      (r = 0 → b1 = b) ∧ (r = 0 ∨ r = 1) := by
  by_cases hf : (b.head + 1) % 8 = b.tail
  · exact ⟨b, 0, queue_put_msg_full b m hf, rfl, rfl, fun _ _ => rfl, fun _ => rfl, Or.inl rfl⟩
  · refine ⟨{ b with message := Function.update b.message ⟨b.head, hr.1⟩ m
                     head := (b.head + 1) % 8 }, 1, queue_put_msg_ok b m hr.1 hf, rfl, rfl, ?_,
      fun h => absurd h (by decide), Or.inr rfl⟩
    intro i hi
    have hne : i ≠ ⟨b.head, hr.1⟩ := fun hc => hi (congrArg Fin.val hc)
    exact Function.update_noteq hne m b.message

/-! ## Claims -/

/-- C1: for a buffer with `head < 8`, `tail < 8` and `(head + 1) mod 8 ≠ tail`,
`queue_put_msg` returns 1, stores the message in the slot at the old head index
and sets `head` to `(old head + 1) mod 8`; `canbus_queue_tx` and
`canbus_queue_rx` do the same on the TX and on the RX buffer. -/
theorem queue_put_msg_stores (b : canbus_buffer_t) (m : canbus_message_t)
    (hh : b.head < 8) (ht : b.tail < 8) (hnf : (b.head + 1) % 8 ≠ b.tail) :
    ∃ b1, queue_put_msg b m = some (b1, 1) ∧
      slot b1 b.head = m ∧ b1.head = (b.head + 1) % 8 ∧
      (∀ s : canbus_state, s.tx_buffer = b →
        canbus_queue_tx s m = some ({ s with tx_buffer := b1 }, 1)) ∧
      (∀ s : canbus_state, s.rx_buffer = b →
        canbus_queue_rx s m = some ({ s with rx_buffer := b1 }, 1)) := by
  have _ := ht
  refine ⟨_, queue_put_msg_ok b m hh hnf, ?_, rfl, ?_, ?_⟩
  · rw [slot_eq _ _ hh]
    simp
  · intro s hs
    unfold canbus_queue_tx
    rw [hs, queue_put_msg_ok b m hh hnf]
  · intro s hs
    unfold canbus_queue_rx
    rw [hs, queue_put_msg_ok b m hh hnf]

theorem queue_put_msg_stores_witness :
    ∃ b1, queue_put_msg (buffer_at canbus_direction_t.dir_TX 7 3) (frame 256) = some (b1, 1) ∧
      slot b1 (buffer_at canbus_direction_t.dir_TX 7 3).head = frame 256 ∧
      b1.head = ((buffer_at canbus_direction_t.dir_TX 7 3).head + 1) % 8 ∧
      (∀ s : canbus_state, s.tx_buffer = buffer_at canbus_direction_t.dir_TX 7 3 →
        canbus_queue_tx s (frame 256) = some ({ s with tx_buffer := b1 }, 1)) ∧
      (∀ s : canbus_state, s.rx_buffer = buffer_at canbus_direction_t.dir_TX 7 3 →
        canbus_queue_rx s (frame 256) = some ({ s with rx_buffer := b1 }, 1)) :=
  queue_put_msg_stores (buffer_at canbus_direction_t.dir_TX 7 3) (frame 256)
    (by decide) (by decide) (by decide)

/-- C2: for a buffer with `head < 8` and `tail < 8` whose `queue_get_len` is 7,
`queue_put_msg` returns 0 and leaves the buffer (head, tail and all slots)
unchanged. -/
theorem queue_put_msg_full_rejects (b : canbus_buffer_t) (m : canbus_message_t)
    (hh : b.head < 8) (ht : b.tail < 8) (hlen : queue_get_len b = 7) :
    queue_put_msg b m = some (b, 0) := by
  apply queue_put_msg_full
  rw [queue_get_len_eq b ⟨hh, ht⟩] at hlen
  split_ifs at hlen <;> omega

theorem queue_put_msg_full_rejects_witness :
    queue_put_msg (buffer_at canbus_direction_t.dir_RX 2 3) (frame 256) =
      some (buffer_at canbus_direction_t.dir_RX 2 3, 0) :=
  queue_put_msg_full_rejects (buffer_at canbus_direction_t.dir_RX 2 3) (frame 256)
    (by decide) (by decide) (by decide)

/-- C5: for a buffer of either direction with `head = tail`, `queue_get_msg`
returns 0, makes no call to the driver's transmit or to the RX handler, and
leaves the buffer unchanged. -/
theorem queue_get_msg_empty (p : canbus_message_t → Nat) (d : canbus_message_t → Bool)
    (b : canbus_buffer_t) (he : b.head = b.tail) :
    queue_get_msg p d b = some (b, 0, []) := by
  unfold queue_get_msg
  rw [if_neg (by simpa using he)]

theorem queue_get_msg_empty_witness :
    queue_get_msg (fun _ => 1) (fun _ => true) (buffer_at canbus_direction_t.dir_TX 5 5) =
      some (buffer_at canbus_direction_t.dir_TX 5 5, 0, []) :=
  queue_get_msg_empty (fun _ => 1) (fun _ => true) (buffer_at canbus_direction_t.dir_TX 5 5) rfl

/-- C3: for a non-empty TX buffer (`head ≠ tail`, both below 8), if the driver
rejects the first `n` drain calls and accepts the next one, then every one of
the `n + 1` calls presents the message in the slot at `tail` to the driver; the
rejected calls return 0 and leave the buffer unchanged; the accepted call
returns 1, advances `tail` to `(tail + 1) mod 8`, leaves `head` and the slots
alone and makes `queue_get_len` one smaller. -/
theorem tx_drain_retries (b : canbus_buffer_t)
    (rejected : List ((canbus_message_t → Nat) × (canbus_message_t → Bool)))
    (p : canbus_message_t → Nat) (d : canbus_message_t → Bool)
    (hdir : b.dir = canbus_direction_t.dir_TX) (hne : b.head ≠ b.tail)
    (hh : b.head < 8) (ht : b.tail < 8)
    (hrej : ∀ g, g ∈ rejected → g.1 (slot b b.tail) = 0) (hacc : p (slot b b.tail) ≠ 0) :
    run_calls b (rejected.map (fun g => queue_call.get g.1 g.2)) =
        some (b, rejected.map (fun g => (queue_call.get g.1 g.2, 0)),
          List.replicate rejected.length (Event.can_put (slot b b.tail))) ∧
      ∃ b1, run_calls b (rejected.map (fun g => queue_call.get g.1 g.2) ++ [queue_call.get p d]) =
          some (b1, rejected.map (fun g => (queue_call.get g.1 g.2, 0)) ++ [(queue_call.get p d, 1)],
            List.replicate (rejected.length + 1) (Event.can_put (slot b b.tail))) ∧
        b1.tail = (b.tail + 1) % 8 ∧ b1.head = b.head ∧ b1.message = b.message ∧
        queue_get_len b1 + 1 = queue_get_len b := by
  have hrun := run_calls_rejects rejected b hne ht hdir hrej
  have hget := queue_get_msg_tx_accept p d b hne ht hdir hacc
  obtain ⟨_, _, _, hget2, _, _, hl, _, _, _⟩ := queue_get_msg_step p d b ⟨hh, ht⟩
  rw [hget] at hget2
  simp only [Option.some.injEq, Prod.mk.injEq] at hget2
  obtain ⟨hb, hr, _⟩ := hget2
  subst hb hr
  simp only [if_true] at hl
  refine ⟨hrun, { b with tail := (b.tail + 1) % 8 }, ?_, rfl, rfl, rfl, hl⟩
  rw [run_calls_append, hrun]
  simp only [run_calls, hget, List.replicate_add, List.replicate_one, List.append_nil]

theorem tx_drain_retries_witness :
    run_calls (buffer_at canbus_direction_t.dir_TX 2 1)
        ([((fun _ => 0), (fun _ => true)), ((fun _ => 0), (fun _ => true))].map
          (fun g => queue_call.get g.1 g.2)) =
        some (buffer_at canbus_direction_t.dir_TX 2 1,
          [((fun _ => 0), (fun _ => true)), ((fun _ => 0), (fun _ => true))].map
            (fun g => (queue_call.get g.1 g.2, 0)),
          List.replicate
            [(((fun _ => 0) : canbus_message_t → Nat), ((fun _ => true) : canbus_message_t → Bool)),
              ((fun _ => 0), (fun _ => true))].length
            (Event.can_put (slot (buffer_at canbus_direction_t.dir_TX 2 1)
              (buffer_at canbus_direction_t.dir_TX 2 1).tail))) ∧
      ∃ b1, run_calls (buffer_at canbus_direction_t.dir_TX 2 1)
            ([((fun _ => 0), (fun _ => true)), ((fun _ => 0), (fun _ => true))].map
              (fun g => queue_call.get g.1 g.2) ++ [queue_call.get (fun _ => 1) (fun _ => true)]) =
          some (b1,
            [((fun _ => 0), (fun _ => true)), ((fun _ => 0), (fun _ => true))].map
              (fun g => (queue_call.get g.1 g.2, 0)) ++
              [(queue_call.get (fun _ => 1) (fun _ => true), 1)],
            List.replicate
              ([(((fun _ => 0) : canbus_message_t → Nat),
                  ((fun _ => true) : canbus_message_t → Bool)),
                ((fun _ => 0), (fun _ => true))].length + 1)
              (Event.can_put (slot (buffer_at canbus_direction_t.dir_TX 2 1)
                (buffer_at canbus_direction_t.dir_TX 2 1).tail))) ∧
        b1.tail = ((buffer_at canbus_direction_t.dir_TX 2 1).tail + 1) % 8 ∧
        b1.head = (buffer_at canbus_direction_t.dir_TX 2 1).head ∧
        b1.message = (buffer_at canbus_direction_t.dir_TX 2 1).message ∧
        queue_get_len b1 + 1 = queue_get_len (buffer_at canbus_direction_t.dir_TX 2 1) :=
  tx_drain_retries (buffer_at canbus_direction_t.dir_TX 2 1)
    [((fun _ => 0), (fun _ => true)), ((fun _ => 0), (fun _ => true))]
    (fun _ => 1) (fun _ => true) rfl (by decide) (by decide) (by decide)
    (by intro g hg; simp at hg; subst hg; rfl)
    (by decide)

/-- C4: starting from an empty RX buffer (`head = tail < 8`), after every
sequence of `queue_put_msg` and `queue_get_msg` calls the messages handed to
the handler, followed by the messages still queued, are the messages whose
enqueue returned 1, in enqueue order; so the handed messages are a prefix of
the accepted ones, each handed once. In particular, enqueuing `k ≤ 7` messages
and then draining `k` times hands them over in that order, and one more drain
returns 0 without a call to the handler. -/
theorem rx_fifo_order (b : canbus_buffer_t) (hdir : b.dir = canbus_direction_t.dir_RX)
    (he : b.head = b.tail) (ht : b.tail < 8) :
    (∀ cs : List queue_call, ∃ b1 rs ev, run_calls b cs = some (b1, rs, ev) ∧
        enqueued rs = handed ev ++ pending b1 ∧ handed ev <+: enqueued rs) ∧
      (∀ (ms : List canbus_message_t)
          (gs : List ((canbus_message_t → Nat) × (canbus_message_t → Bool)))
          (p : canbus_message_t → Nat) (d : canbus_message_t → Bool),
        ms.length ≤ 7 → gs.length = ms.length →
        ∃ b1, run_calls b (ms.map queue_call.put ++ gs.map (fun g => queue_call.get g.1 g.2) ++
              [queue_call.get p d]) =
          some (b1, ms.map (fun m => (queue_call.put m, 1)) ++
              gs.map (fun g => (queue_call.get g.1 g.2, 1)) ++ [(queue_call.get p d, 0)],
            ms.map Event.dequeue_rx)) := by
  have hr : b.inRange := ⟨he ▸ ht, ht⟩
  have h0 : queue_get_len b = 0 := queue_get_len_zero b he
  have hp0 : pending b = [] := by simp [pending, h0, slotsFrom]
  constructor
  · intro cs
    obtain ⟨b1, rs, ev, hrun, _, _, _, hp⟩ := run_calls_invariant cs b hr
    have h := hp hdir
    rw [hp0, List.nil_append] at h
    exact ⟨b1, rs, ev, hrun, h, h ▸ List.prefix_append _ _⟩
  · intro ms gs p d hk hg
    obtain ⟨b1, hrun1, hr1, hd1, hp1, hl1, _⟩ := run_calls_puts ms b hr (by omega)
    rw [hp0, List.nil_append] at hp1
    obtain ⟨b2, hrun2, _, _, he2⟩ :=
      run_calls_gets_rx gs b1 hr1 (hd1.trans hdir) (by omega)
    refine ⟨b2, ?_⟩
    rw [run_calls_append, run_calls_append, hrun1]
    simp only [hrun2, run_calls, queue_get_msg_of_empty p d b2 he2, hp1, List.nil_append,
      List.append_nil]

theorem rx_fifo_order_witness :
    ∃ b1, run_calls (buffer_at canbus_direction_t.dir_RX 0 0)
          ([frame 256, frame 257, frame 258].map queue_call.put ++
            [((fun _ => 0), (fun _ => true)), ((fun _ => 1), (fun _ => false)),
              ((fun _ => 0), (fun _ => true))].map (fun g => queue_call.get g.1 g.2) ++
            [queue_call.get (fun _ => 1) (fun _ => true)]) =
      some (b1, [frame 256, frame 257, frame 258].map (fun m => (queue_call.put m, 1)) ++
          [((fun _ => 0), (fun _ => true)), ((fun _ => 1), (fun _ => false)),
            ((fun _ => 0), (fun _ => true))].map (fun g => (queue_call.get g.1 g.2, 1)) ++
          [(queue_call.get (fun _ => 1) (fun _ => true), 0)],
        [frame 256, frame 257, frame 258].map Event.dequeue_rx) :=
  (rx_fifo_order (buffer_at canbus_direction_t.dir_RX 0 0) rfl rfl (by decide)).2
    [frame 256, frame 257, frame 258]
    [((fun _ => 0), (fun _ => true)), ((fun _ => 1), (fun _ => false)),
      ((fun _ => 0), (fun _ => true))]
    (fun _ => 1) (fun _ => true) (by decide) rfl

/-- C6: starting from an empty buffer (`head = tail < 8`) of either direction,
every finite sequence of `queue_put_msg` and `queue_get_msg` calls, whatever
the driver and the handler answer, runs to the end, and afterwards
`queue_get_len` is the number of enqueue calls that returned 1 minus the number
of drain calls that returned 1; it is `head - tail` if `head ≥ tail` and
`head + 8 - tail` otherwise. -/
theorem queue_get_len_counts (b : canbus_buffer_t) (cs : List queue_call)
    (he : b.head = b.tail) (ht : b.tail < 8) :
    ∃ b1 rs ev, run_calls b cs = some (b1, rs, ev) ∧
      gets_ok rs ≤ puts_ok rs ∧ queue_get_len b1 = puts_ok rs - gets_ok rs ∧
      queue_get_len b1 =
        if b1.head ≥ b1.tail then b1.head - b1.tail else b1.head + 8 - b1.tail := by
  have hr : b.inRange := ⟨he ▸ ht, ht⟩
  have h0 : queue_get_len b = 0 := queue_get_len_zero b he
  obtain ⟨b1, rs, ev, hrun, hr1, _, hl, _⟩ := run_calls_invariant cs b hr
  exact ⟨b1, rs, ev, hrun, by omega, by omega, queue_get_len_eq b1 hr1⟩

theorem queue_get_len_counts_witness :
    ∃ b1 rs ev,
      run_calls (buffer_at canbus_direction_t.dir_TX 6 6)
        [queue_call.put (frame 1), queue_call.get (fun _ => 0) (fun _ => true),
          queue_call.put (frame 2), queue_call.get (fun _ => 1) (fun _ => true),
          queue_call.put (frame 3)] = some (b1, rs, ev) ∧
      gets_ok rs ≤ puts_ok rs ∧ queue_get_len b1 = puts_ok rs - gets_ok rs ∧
      queue_get_len b1 =
        if b1.head ≥ b1.tail then b1.head - b1.tail else b1.head + 8 - b1.tail :=
  queue_get_len_counts (buffer_at canbus_direction_t.dir_TX 6 6)
    [queue_call.put (frame 1), queue_call.get (fun _ => 0) (fun _ => true),
      queue_call.put (frame 2), queue_call.get (fun _ => 1) (fun _ => true),
      queue_call.put (frame 3)] rfl (by decide)

/-- C7: for an empty buffer with `head = tail = t < 8` and messages `m1 .. m8`,
the first seven consecutive `queue_put_msg` calls return 1 and the eighth
returns 0; afterwards the slots `t, t + 1, .., t + 6` (modulo 8) hold
`m1 .. m7` in order, these are the queued messages, `tail` is still `t` and
`queue_get_len` is 7. -/
theorem fill_to_capacity (b : canbus_buffer_t) (t : Nat)
    (m1 m2 m3 m4 m5 m6 m7 m8 : canbus_message_t)
    (hh : b.head = t) (htl : b.tail = t) (ht : t < 8) :
    ∃ b1, run_calls b [queue_call.put m1, queue_call.put m2, queue_call.put m3,
          queue_call.put m4, queue_call.put m5, queue_call.put m6, queue_call.put m7,
          queue_call.put m8] =
        some (b1, [(queue_call.put m1, 1), (queue_call.put m2, 1), (queue_call.put m3, 1),
          (queue_call.put m4, 1), (queue_call.put m5, 1), (queue_call.put m6, 1),
          (queue_call.put m7, 1), (queue_call.put m8, 0)], []) ∧
      slot b1 t = m1 ∧ slot b1 (t + 1) = m2 ∧ slot b1 (t + 2) = m3 ∧ slot b1 (t + 3) = m4 ∧
      slot b1 (t + 4) = m5 ∧ slot b1 (t + 5) = m6 ∧ slot b1 (t + 6) = m7 ∧
      pending b1 = [m1, m2, m3, m4, m5, m6, m7] ∧ b1.tail = t ∧ queue_get_len b1 = 7 := by
  have hr : b.inRange := ⟨hh ▸ ht, htl ▸ ht⟩
  have h0 : queue_get_len b = 0 := queue_get_len_zero b (hh.trans htl.symm)
  have hp0 : pending b = [] := by simp [pending, h0, slotsFrom]
  obtain ⟨b1, hrun, hr1, _, hp1, hl1, ht1⟩ :=
    run_calls_puts [m1, m2, m3, m4, m5, m6, m7] b hr (by simp [h0])
  rw [hp0, List.nil_append] at hp1
  have h7 : queue_get_len b1 = 7 := by simp [hl1, h0]
  have hfull := queue_put_msg_full b1 m8 (full_of_len b1 hr1 h7)
  have hslots := hp1
  rw [pending, h7, ht1, htl] at hslots
  simp only [slotsFrom, List.cons.injEq, and_true] at hslots
  obtain ⟨s1, s2, s3, s4, s5, s6, s7⟩ := hslots
  refine ⟨b1, ?_, s1, s2, s3, s4, s5, s6, s7, hp1, ht1.trans htl, h7⟩
  have happ := run_calls_append
    [queue_call.put m1, queue_call.put m2, queue_call.put m3, queue_call.put m4,
      queue_call.put m5, queue_call.put m6, queue_call.put m7] [queue_call.put m8] b
  simp only [List.map_cons, List.map_nil] at hrun
  rw [hrun] at happ
  simp only [run_calls, hfull] at happ
  simpa using happ

theorem fill_to_capacity_witness :
    ∃ b1, run_calls (buffer_at canbus_direction_t.dir_TX 5 5)
          [queue_call.put (frame 1), queue_call.put (frame 2), queue_call.put (frame 3),
            queue_call.put (frame 4), queue_call.put (frame 5), queue_call.put (frame 6),
            queue_call.put (frame 7), queue_call.put (frame 8)] =
        some (b1, [(queue_call.put (frame 1), 1), (queue_call.put (frame 2), 1),
          (queue_call.put (frame 3), 1), (queue_call.put (frame 4), 1),
          (queue_call.put (frame 5), 1), (queue_call.put (frame 6), 1),
          (queue_call.put (frame 7), 1), (queue_call.put (frame 8), 0)], []) ∧
      slot b1 5 = frame 1 ∧ slot b1 (5 + 1) = frame 2 ∧ slot b1 (5 + 2) = frame 3 ∧
      slot b1 (5 + 3) = frame 4 ∧ slot b1 (5 + 4) = frame 5 ∧ slot b1 (5 + 5) = frame 6 ∧
      slot b1 (5 + 6) = frame 7 ∧
      pending b1 = [frame 1, frame 2, frame 3, frame 4, frame 5, frame 6, frame 7] ∧
      b1.tail = 5 ∧ queue_get_len b1 = 7 :=
  fill_to_capacity (buffer_at canbus_direction_t.dir_TX 5 5) 5
    (frame 1) (frame 2) (frame 3) (frame 4) (frame 5) (frame 6) (frame 7) (frame 8)
    rfl rfl (by decide)

/-- C8: in `canbus_poll_realtime`, when the tick count read from
`hal.get_elapsed_ticks` equals the stored `last_ms`, nothing is drained: no call
to the driver's transmit, no call to the RX handler, the tails of the TX and RX
buffers and `last_ms` are as before the call. -/
theorem poll_rate_limited (env : poll_env) (s : canbus_state) (hwf : s.wf)
    (hms : env.get_elapsed_ticks % 2 ^ 32 = s.last_ms) :
    ∃ s1 ev, canbus_poll_realtime env s = some (s1, ev) ∧
      transmitted ev = [] ∧ handed ev = [] ∧
      s1.tx_buffer.tail = s.tx_buffer.tail ∧ s1.rx_buffer.tail = s.rx_buffer.tail ∧
      s1.last_ms = s.last_ms := by
  obtain ⟨s2, hpro, _, ht, hr, hl, _, _, _⟩ := poll_prologue_spec env s hwf
  refine ⟨s2, prologue_events env, ?_, (prologue_events_quiet env).1,
    (prologue_events_quiet env).2, ht, hr, hl⟩
  simp only [canbus_poll_realtime, hpro]
  rw [if_pos (hms.trans hl.symm)]

theorem poll_rate_limited_witness :
    ∃ s1 ev, canbus_poll_realtime (busy_env 41) sample_state = some (s1, ev) ∧
      transmitted ev = [] ∧ handed ev = [] ∧
      s1.tx_buffer.tail = sample_state.tx_buffer.tail ∧
      s1.rx_buffer.tail = sample_state.rx_buffer.tail ∧
      s1.last_ms = sample_state.last_ms :=
  poll_rate_limited (busy_env 41) sample_state
    ⟨⟨by decide, by decide⟩, ⟨by decide, by decide⟩, rfl, rfl⟩ (by decide)

/-- C9: one call of `canbus_poll_realtime` whose tick count differs from
`last_ms` calls the driver's transmit exactly once, with the message at `tail`,
if the TX buffer is non-empty when it is tested and not at all otherwise, calls
the RX handler exactly once, with the message at `tail`, if the RX buffer is
non-empty when it is tested and not at all otherwise, lowers each buffer's
length by at most one, and sets `last_ms` to the tick count. The buffers are
tested after the previous handler and `can_get` have run, which is the state on
entry when those make no call into the plugin. -/
theorem poll_drains_one (env : poll_env) (s : canbus_state) (hwf : s.wf)
    (hms : env.get_elapsed_ticks % 2 ^ 32 ≠ s.last_ms) :
    ∃ s2 s3 ev, poll_prologue env s = some (s2, prologue_events env) ∧
      canbus_poll_realtime env s = some (s3, ev) ∧
      ev = prologue_events env ++
        (if s2.tx_buffer.head ≠ s2.tx_buffer.tail then
          [Event.can_put (slot s2.tx_buffer s2.tx_buffer.tail)] else []) ++
        (if s2.rx_buffer.head ≠ s2.rx_buffer.tail then
          [Event.dequeue_rx (slot s2.rx_buffer s2.rx_buffer.tail)] else []) ∧
      transmitted ev =
        (if s2.tx_buffer.head ≠ s2.tx_buffer.tail then [slot s2.tx_buffer s2.tx_buffer.tail]
         else []) ∧
      handed ev =
        (if s2.rx_buffer.head ≠ s2.rx_buffer.tail then [slot s2.rx_buffer s2.rx_buffer.tail]
         else []) ∧
      queue_get_len s3.tx_buffer ≤ queue_get_len s2.tx_buffer ∧
      queue_get_len s2.tx_buffer ≤ queue_get_len s3.tx_buffer + 1 ∧
      queue_get_len s3.rx_buffer ≤ queue_get_len s2.rx_buffer ∧
      queue_get_len s2.rx_buffer ≤ queue_get_len s3.rx_buffer + 1 ∧
      s3.last_ms = env.get_elapsed_ticks % 2 ^ 32 ∧
      queue_get_len s.tx_buffer ≤ queue_get_len s3.tx_buffer + 1 ∧
      queue_get_len s.rx_buffer ≤ queue_get_len s3.rx_buffer + 1 ∧
      (env.on_execute_realtime = [] → (env.can_rx_pending = false ∨ env.can_get = []) →
        s2 = s) := by
  obtain ⟨s2, hpro, hwf2, _, _, hl, hnt, hnr, hquiet⟩ := poll_prologue_spec env s hwf
  obtain ⟨htx, hrx, hdt, hdr⟩ := hwf2
  obtain ⟨txb, rt, htxd, _, _, hlt1, hlt2⟩ :=
    guarded_drain_tx env.can_put env.dequeue_rx s2.tx_buffer htx hdt
  obtain ⟨rxb, rr, hrxd, _, _, hlr1, hlr2⟩ :=
    guarded_drain_rx env.can_put env.dequeue_rx s2.rx_buffer hrx hdr
  have hne : ¬ env.get_elapsed_ticks % 2 ^ 32 = s2.last_ms := by
    rw [hl]
    exact hms
  refine ⟨s2, { s2 with tx_buffer := txb, rx_buffer := rxb,
                        last_ms := env.get_elapsed_ticks % 2 ^ 32 }, _, hpro, ?_, rfl, ?_, ?_,
    hlt1, hlt2, hlr1, hlr2, rfl, le_trans hnt hlt2, le_trans hnr hlr2, hquiet⟩
  · simp only [canbus_poll_realtime, hpro]
    rw [if_neg hne]
    simp only [htxd, hrxd]
  · rw [transmitted_append, transmitted_append, (prologue_events_quiet env).1]
    split_ifs <;> simp [transmitted]
  · rw [handed_append, handed_append, (prologue_events_quiet env).2]
    split_ifs <;> simp [handed]

theorem poll_drains_one_witness :
    ∃ s2 s3 ev, poll_prologue (busy_env 42) sample_state = some (s2, prologue_events (busy_env 42)) ∧
      canbus_poll_realtime (busy_env 42) sample_state = some (s3, ev) ∧
      ev = prologue_events (busy_env 42) ++
        (if s2.tx_buffer.head ≠ s2.tx_buffer.tail then
          [Event.can_put (slot s2.tx_buffer s2.tx_buffer.tail)] else []) ++
        (if s2.rx_buffer.head ≠ s2.rx_buffer.tail then
          [Event.dequeue_rx (slot s2.rx_buffer s2.rx_buffer.tail)] else []) ∧
      transmitted ev =
        (if s2.tx_buffer.head ≠ s2.tx_buffer.tail then [slot s2.tx_buffer s2.tx_buffer.tail]
         else []) ∧
      handed ev =
        (if s2.rx_buffer.head ≠ s2.rx_buffer.tail then [slot s2.rx_buffer s2.rx_buffer.tail]
         else []) ∧
      queue_get_len s3.tx_buffer ≤ queue_get_len s2.tx_buffer ∧
      queue_get_len s2.tx_buffer ≤ queue_get_len s3.tx_buffer + 1 ∧
      queue_get_len s3.rx_buffer ≤ queue_get_len s2.rx_buffer ∧
      queue_get_len s2.rx_buffer ≤ queue_get_len s3.rx_buffer + 1 ∧
      s3.last_ms = (busy_env 42).get_elapsed_ticks % 2 ^ 32 ∧
      queue_get_len sample_state.tx_buffer ≤ queue_get_len s3.tx_buffer + 1 ∧
      queue_get_len sample_state.rx_buffer ≤ queue_get_len s3.rx_buffer + 1 ∧
      ((busy_env 42).on_execute_realtime = [] →
        ((busy_env 42).can_rx_pending = false ∨ (busy_env 42).can_get = []) →
        s2 = sample_state) :=
  poll_drains_one (busy_env 42) sample_state
    ⟨⟨by decide, by decide⟩, ⟨by decide, by decide⟩, rfl, rfl⟩ (by decide)

/-- C10: baud index round trip. For each supported rate `r` of 125000, 250000,
500000 and 1000000, `baud[get_baudrate(r)]` is `r`; for each index `i` of
0, 1, 2 and 3, `get_baudrate(baud[i])` is `i`. -/
theorem baud_index_round_trip :
    ((get_baudrate 125000).bind (fun i => baud[i]?) = some 125000 ∧
      (get_baudrate 250000).bind (fun i => baud[i]?) = some 250000 ∧
      (get_baudrate 500000).bind (fun i => baud[i]?) = some 500000 ∧
      (get_baudrate 1000000).bind (fun i => baud[i]?) = some 1000000) ∧
    ((baud[0]?).bind get_baudrate = some 0 ∧ (baud[1]?).bind get_baudrate = some 1 ∧
      (baud[2]?).bind get_baudrate = some 2 ∧ (baud[3]?).bind get_baudrate = some 3) := by
  decide

/-- C11: for every rate other than 125000, 250000, 500000 and 1000000,
`get_baudrate` returns the default index 0, the index of 125000; for every rate
at all it returns, and the index is one of 0, 1, 2, 3. -/
theorem get_baudrate_unsupported (rate : Nat)
    (h1 : rate ≠ 125000) (h2 : rate ≠ 250000) (h3 : rate ≠ 500000) (h4 : rate ≠ 1000000) :
    get_baudrate rate = some DEFAULT_BAUDRATE ∧ baud[DEFAULT_BAUDRATE]? = some 125000 ∧
      ∀ r : Nat, ∃ i, get_baudrate r = some i ∧ i ≤ 3 := by
  refine ⟨?_, rfl, ?_⟩
  · simp [get_baudrate, get_baudrate_loop, baud, Ne.symm h1, Ne.symm h2, Ne.symm h3, Ne.symm h4]
  · intro r
    by_cases r4 : 1000000 = r
    · exact ⟨3, by simp [get_baudrate, get_baudrate_loop, baud, r4], by decide⟩
    · by_cases r3 : 500000 = r
      · exact ⟨2, by simp [get_baudrate, get_baudrate_loop, baud, r4, r3], by decide⟩
      · by_cases r2 : 250000 = r
        · exact ⟨1, by simp [get_baudrate, get_baudrate_loop, baud, r4, r3, r2], by decide⟩
        · exact ⟨0, by simp [get_baudrate, get_baudrate_loop, baud, r4, r3, r2], by decide⟩

theorem get_baudrate_unsupported_witness :
    get_baudrate 115200 = some DEFAULT_BAUDRATE ∧ baud[DEFAULT_BAUDRATE]? = some 125000 ∧
      ∀ r : Nat, ∃ i, get_baudrate r = some i ∧ i ≤ 3 :=
  get_baudrate_unsupported 115200 (by decide) (by decide) (by decide) (by decide)

/-- C12: `canbus_settings_save` copies the object `canbus` to storage, whatever
`canbus_settings` holds. With the settings at 250000 baud and the first four
bytes of `canbus` read as 134236721, the value written at the storage address
is 134236721, and a load whose read succeeds with that value leaves
`baud_rate` at 134236721 instead of 250000; `canbus_settings_restore` does
write the settings value. -/
theorem settings_save_writes_canbus_object :
    configured_state.canbus_settings.baud_rate = 250000 ∧
      (canbus_settings_save 134236721 configured_state).2 =
        [Event.HAL_Delay 100, Event.memcpy_to_nvs 64 134236721] ∧
      (canbus_settings_load (read_of 134236721) (fun _ => 1)
        (canbus_settings_save 134236721 configured_state).1).1.canbus_settings.baud_rate =
        134236721 ∧
      (∀ (object : Nat) (s : canbus_state) (rate : Nat),
        (canbus_settings_save object { s with canbus_settings := { baud_rate := rate } }).2 =
          (canbus_settings_save object s).2) ∧
      (canbus_settings_restore configured_state).2 = [Event.memcpy_to_nvs 64 125000] := by
  refine ⟨rfl, rfl, rfl, fun _ _ _ => rfl, rfl⟩

/-- C13: in `canbus_settings_load`, when the storage read does not return
`NVS_TransferResult_OK`, `baud_rate` becomes 125000 and the calls made are the
read, a write of 125000 at the storage address, and then the driver's start;
when the read returns `NVS_TransferResult_OK`, `baud_rate` is the value read
and the calls made are the read and the driver's start, with no write. -/
theorem settings_load_fallback (memcpy_from_nvs : Nat → Nat → nvs_transfer_result_t × Nat)
    (can_start : Nat → Nat) (s : canbus_state) :
    ((memcpy_from_nvs s.nvs_address s.canbus_settings.baud_rate).1 ≠
        nvs_transfer_result_t.NVS_TransferResult_OK →
      (canbus_settings_load memcpy_from_nvs can_start s).1.canbus_settings.baud_rate = 125000 ∧
      (canbus_settings_load memcpy_from_nvs can_start s).2 =
        [Event.memcpy_from_nvs s.nvs_address, Event.memcpy_to_nvs s.nvs_address 125000,
          Event.can_start 125000]) ∧
    ((memcpy_from_nvs s.nvs_address s.canbus_settings.baud_rate).1 =
        nvs_transfer_result_t.NVS_TransferResult_OK →
      (canbus_settings_load memcpy_from_nvs can_start s).1.canbus_settings.baud_rate =
        (memcpy_from_nvs s.nvs_address s.canbus_settings.baud_rate).2 % 2 ^ 32 ∧
      (canbus_settings_load memcpy_from_nvs can_start s).2 =
        [Event.memcpy_from_nvs s.nvs_address,
          Event.can_start ((memcpy_from_nvs s.nvs_address s.canbus_settings.baud_rate).2 % 2 ^ 32)]) := by
  constructor
  · intro h
    unfold canbus_settings_load
    simp only [if_pos h, canbus_settings_restore, canbus_start]
    split_ifs <;> exact ⟨rfl, rfl⟩
  · intro h
    unfold canbus_settings_load
    simp only [h, ne_eq, not_true_eq_false, if_false, canbus_start]
    split_ifs <;> exact ⟨rfl, rfl⟩

theorem settings_load_fallback_witness :
    ((canbus_settings_load failing_read (fun _ => 1) configured_state).1.canbus_settings.baud_rate =
        125000 ∧
      (canbus_settings_load failing_read (fun _ => 1) configured_state).2 =
        [Event.memcpy_from_nvs configured_state.nvs_address,
          Event.memcpy_to_nvs configured_state.nvs_address 125000, Event.can_start 125000]) ∧
    ((canbus_settings_load (read_of 500000) (fun _ => 1) configured_state).1.canbus_settings.baud_rate =
        (read_of 500000 configured_state.nvs_address
          configured_state.canbus_settings.baud_rate).2 % 2 ^ 32 ∧
      (canbus_settings_load (read_of 500000) (fun _ => 1) configured_state).2 =
        [Event.memcpy_from_nvs configured_state.nvs_address,
          Event.can_start ((read_of 500000 configured_state.nvs_address
            configured_state.canbus_settings.baud_rate).2 % 2 ^ 32)]) :=
  ⟨(settings_load_fallback failing_read (fun _ => 1) configured_state).1 (by decide),
    (settings_load_fallback (read_of 500000) (fun _ => 1) configured_state).2 rfl⟩

/-- C14: for every index `i` of 0, 1, 2 and 3, `canbus_set_baud(id, i)` sets
`baud_rate` to `baud[i]` (125000, 250000, 500000, 1000000), calls the driver's
stop and then the driver's start, and returns `Status_OK`; when the driver's
start fails, `baud_rate` is `baud[i]` all the same and the enabled flag is
false. -/
theorem set_baud_restarts (can_start : Nat → Nat) (s : canbus_state) (id i : Nat) (hi : i ≤ 3) :
    ∃ rate s1, baud[i]? = some rate ∧
      [125000, 250000, 500000, 1000000][i]? = some rate ∧
      canbus_set_baud can_start s id i =
        some (s1, status_code_t.Status_OK, [Event.can_stop, Event.can_start rate]) ∧
      s1.canbus_settings.baud_rate = rate ∧
      (can_start rate = 0 → canbus_enabled s1 = false) ∧
      (can_start rate ≠ 0 → canbus_enabled s1 = true) := by
  have hlt : i % 2 ^ 32 = i := Nat.mod_eq_of_lt (by omega)
  obtain ⟨rate, hrate⟩ : ∃ rate, baud[i]? = some rate := by
    interval_cases i <;> exact ⟨_, rfl⟩
  by_cases hst : can_start rate = 0
  · refine ⟨rate, { s with canbus_settings := { baud_rate := rate }, isEnabled := false }, hrate,
      hrate, ?_, rfl, fun _ => rfl, fun h => absurd hst h⟩
    simp only [canbus_set_baud, hlt, hrate, canbus_stop, canbus_start, hst]
    simp
  · refine ⟨rate, { s with canbus_settings := { baud_rate := rate }, isEnabled := true }, hrate,
      hrate, ?_, rfl, fun h => absurd h hst, fun _ => rfl⟩
    simp only [canbus_set_baud, hlt, hrate, canbus_stop, canbus_start, hst]
    simp

theorem set_baud_restarts_witness :
    ∃ rate s1, baud[2]? = some rate ∧
      [125000, 250000, 500000, 1000000][2]? = some rate ∧
      canbus_set_baud (fun _ => 0) configured_state 0 2 =
        some (s1, status_code_t.Status_OK, [Event.can_stop, Event.can_start rate]) ∧
      s1.canbus_settings.baud_rate = rate ∧
      ((fun _ => 0) rate = 0 → canbus_enabled s1 = false) ∧
      ((fun _ => 0) rate ≠ 0 → canbus_enabled s1 = true) :=
  set_baud_restarts (fun _ => 0) configured_state 0 2 (by decide)

/-- C15: after a call of `canbus_start`, `canbus_enabled` is true exactly when
the driver's start call, made with `canbus_settings.baud_rate`, reported
success, whatever the flag was before: a failed start leaves it false and a
successful start leaves it true. -/
theorem start_sets_enabled (can_start : Nat → Nat) (s : canbus_state) (baud : Nat) :
    (canbus_start can_start s baud).2.2 = [Event.can_start s.canbus_settings.baud_rate] ∧
      (canbus_enabled (canbus_start can_start s baud).1 = true ↔
        can_start s.canbus_settings.baud_rate ≠ 0) ∧
      (can_start s.canbus_settings.baud_rate = 0 →
        canbus_enabled (canbus_start can_start { s with isEnabled := true } baud).1 = false) ∧
      (can_start s.canbus_settings.baud_rate ≠ 0 →
        canbus_enabled (canbus_start can_start { s with isEnabled := false } baud).1 = true) := by
  unfold canbus_start canbus_enabled
  by_cases h : can_start s.canbus_settings.baud_rate = 0
  · simp [h]
  · simp [h]

theorem start_sets_enabled_witness :
    canbus_enabled (canbus_start (fun _ => 0) { configured_state with isEnabled := true } 9).1 =
        false ∧
      canbus_enabled (canbus_start (fun _ => 1) { configured_state with isEnabled := false } 9).1 =
        true :=
  ⟨(start_sets_enabled (fun _ => 0) configured_state 9).2.2.1 rfl,
    (start_sets_enabled (fun _ => 1) configured_state 9).2.2.2 (by decide)⟩

/-- C20: `canbus_start` does not depend on its argument: for any two argument
values, with the same state and the same driver, it hands the driver the stored
`canbus_settings.baud_rate` and gives the same state (so the same enabled
flag), the same return value and the same calls. -/
theorem start_ignores_argument (can_start : Nat → Nat) (s : canbus_state) (a b : Nat) :
    canbus_start can_start s a = canbus_start can_start s b ∧
      (canbus_start can_start s a).2.2 = [Event.can_start s.canbus_settings.baud_rate] ∧
      (canbus_start can_start s a).1.isEnabled = (canbus_start can_start s b).1.isEnabled ∧
      (canbus_start can_start s a).2.1 = (canbus_start can_start s b).2.1 := by
  refine ⟨rfl, ?_, rfl, rfl⟩
  unfold canbus_start
  split_ifs <;> rfl

/-- C16: the index-range predicate `head < 8` and `tail < 8` holds for the
initial TX and RX buffers, whose cursors are 0, and every `queue_put_msg` and
every `queue_get_msg` call on a buffer within range returns (each slot access
is inside the array) and leaves the buffer within range, whatever the message,
direction, driver answer or handler answer; so does every sequence of such
calls. -/
theorem index_range_invariant :
    ((initial_buffer canbus_direction_t.dir_TX).inRange ∧
      (initial_buffer canbus_direction_t.dir_RX).inRange ∧
      (initial_buffer canbus_direction_t.dir_TX).head = 0 ∧
      (initial_buffer canbus_direction_t.dir_TX).tail = 0 ∧
      (initial_buffer canbus_direction_t.dir_RX).head = 0 ∧
      (initial_buffer canbus_direction_t.dir_RX).tail = 0 ∧ initial_state.wf) ∧
    (∀ (b : canbus_buffer_t) (m : canbus_message_t), b.inRange →
      ∃ b1 r, queue_put_msg b m = some (b1, r) ∧ b1.inRange) ∧
    (∀ (b : canbus_buffer_t) (p : canbus_message_t → Nat) (d : canbus_message_t → Bool),
      b.inRange → ∃ b1 r e, queue_get_msg p d b = some (b1, r, e) ∧ b1.inRange) ∧
    (∀ (b : canbus_buffer_t) (cs : List queue_call), b.inRange →
      ∃ b1 rs ev, run_calls b cs = some (b1, rs, ev) ∧ b1.inRange) := by
  refine ⟨⟨by decide, by decide, rfl, rfl, rfl, rfl,
    ⟨by decide, by decide⟩, ⟨by decide, by decide⟩, rfl, rfl⟩, ?_, ?_, ?_⟩
  · intro b m hr
    obtain ⟨b1, r, hput, hr1, _⟩ := queue_put_msg_step b m hr
    exact ⟨b1, r, hput, hr1⟩
  · intro b p d hr
    obtain ⟨b1, r, e, hget, hr1, _⟩ := queue_get_msg_step p d b hr
    exact ⟨b1, r, e, hget, hr1⟩
  · intro b cs hr
    obtain ⟨b1, rs, ev, hrun, hr1, _⟩ := run_calls_invariant cs b hr
    exact ⟨b1, rs, ev, hrun, hr1⟩

theorem index_range_invariant_witness :
    (∃ b1 r, queue_put_msg (buffer_at canbus_direction_t.dir_RX 7 2) (frame 5) = some (b1, r) ∧
        b1.inRange) ∧
      (∃ b1 r e, queue_get_msg (fun _ => 0) (fun _ => false)
          (buffer_at canbus_direction_t.dir_TX 0 7) = some (b1, r, e) ∧ b1.inRange) :=
  ⟨index_range_invariant.2.1 (buffer_at canbus_direction_t.dir_RX 7 2) (frame 5)
      ⟨by decide, by decide⟩,
    index_range_invariant.2.2.1 (buffer_at canbus_direction_t.dir_TX 0 7) (fun _ => 0)
      (fun _ => false) ⟨by decide, by decide⟩⟩

/-- C17: ownership split. On a buffer within range, a `queue_put_msg` call
leaves `tail` and every slot other than the one at the old head index
unchanged, and leaves the whole buffer unchanged when it returns 0; a
`queue_get_msg` call leaves `head` and all slots unchanged, so that it changes
at most `tail`. -/
theorem ownership_split (b : canbus_buffer_t) (m : canbus_message_t)
    (p : canbus_message_t → Nat) (d : canbus_message_t → Bool) (hr : b.inRange) :
    (∃ b1 r, queue_put_msg b m = some (b1, r) ∧ b1.tail = b.tail ∧ b1.dir = b.dir ∧
        (∀ i : Fin CANBUS_BUFFER_LEN, i.val ≠ b.head → b1.message i = b.message i) ∧
        (r = 0 → b1 = b) ∧ (r = 0 ∨ r = 1)) ∧
      (∃ b2 r e, queue_get_msg p d b = some (b2, r, e) ∧ b2.head = b.head ∧
        b2.message = b.message ∧ b2.dir = b.dir) := by
  refine ⟨queue_put_msg_frame b m hr, ?_⟩
  obtain ⟨b2, r, e, hget, _, hd, _, _, hh, hm⟩ := queue_get_msg_step p d b hr
  exact ⟨b2, r, e, hget, hh, hm, hd⟩

theorem ownership_split_witness :
    (∃ b1 r, queue_put_msg (buffer_at canbus_direction_t.dir_TX 4 6) (frame 5) = some (b1, r) ∧
        b1.tail = (buffer_at canbus_direction_t.dir_TX 4 6).tail ∧
        b1.dir = (buffer_at canbus_direction_t.dir_TX 4 6).dir ∧
        (∀ i : Fin CANBUS_BUFFER_LEN, i.val ≠ (buffer_at canbus_direction_t.dir_TX 4 6).head →
          b1.message i = (buffer_at canbus_direction_t.dir_TX 4 6).message i) ∧
        (r = 0 → b1 = buffer_at canbus_direction_t.dir_TX 4 6) ∧ (r = 0 ∨ r = 1)) ∧
      (∃ b2 r e, queue_get_msg (fun _ => 1) (fun _ => true)
          (buffer_at canbus_direction_t.dir_TX 4 6) = some (b2, r, e) ∧
        b2.head = (buffer_at canbus_direction_t.dir_TX 4 6).head ∧
        b2.message = (buffer_at canbus_direction_t.dir_TX 4 6).message ∧
        b2.dir = (buffer_at canbus_direction_t.dir_TX 4 6).dir) :=
  ownership_split (buffer_at canbus_direction_t.dir_TX 4 6) (frame 5) (fun _ => 1) (fun _ => true)
    ⟨by decide, by decide⟩

/-- C18: for a non-empty RX buffer (`head ≠ tail`, both below 8),
`queue_get_msg` calls the registered handler exactly once, with the message
stored at `tail`, advances `tail` to `(tail + 1) mod 8` and returns 1, whatever
the handler answers; the driver's transmit is not called. -/
theorem rx_drain_always_consumes (p : canbus_message_t → Nat) (d : canbus_message_t → Bool)
    (b : canbus_buffer_t) (hdir : b.dir = canbus_direction_t.dir_RX) (hne : b.head ≠ b.tail)
    (hh : b.head < 8) (ht : b.tail < 8) :
    queue_get_msg p d b =
        some ({ b with tail := (b.tail + 1) % 8 }, 1, [Event.dequeue_rx (slot b b.tail)]) ∧
      handed [Event.dequeue_rx (slot b b.tail)] = [slot b b.tail] ∧
      transmitted [Event.dequeue_rx (slot b b.tail)] = [] ∧
      (∀ (p2 : canbus_message_t → Nat) (d2 : canbus_message_t → Bool),
        queue_get_msg p2 d2 b = queue_get_msg p d b) := by
  have _ := hh
  refine ⟨queue_get_msg_rx p d b hne ht hdir, rfl, rfl, ?_⟩
  intro p2 d2
  rw [queue_get_msg_rx p d b hne ht hdir, queue_get_msg_rx p2 d2 b hne ht hdir]

theorem rx_drain_always_consumes_witness :
    queue_get_msg (fun _ => 0) (fun _ => false) (buffer_at canbus_direction_t.dir_RX 1 7) =
        some ({ buffer_at canbus_direction_t.dir_RX 1 7 with
                  tail := ((buffer_at canbus_direction_t.dir_RX 1 7).tail + 1) % 8 }, 1,
          [Event.dequeue_rx (slot (buffer_at canbus_direction_t.dir_RX 1 7)
            (buffer_at canbus_direction_t.dir_RX 1 7).tail)]) ∧
      handed [Event.dequeue_rx (slot (buffer_at canbus_direction_t.dir_RX 1 7)
          (buffer_at canbus_direction_t.dir_RX 1 7).tail)] =
        [slot (buffer_at canbus_direction_t.dir_RX 1 7)
          (buffer_at canbus_direction_t.dir_RX 1 7).tail] ∧
      transmitted [Event.dequeue_rx (slot (buffer_at canbus_direction_t.dir_RX 1 7)
          (buffer_at canbus_direction_t.dir_RX 1 7).tail)] = [] ∧
      (∀ (p2 : canbus_message_t → Nat) (d2 : canbus_message_t → Bool),
        queue_get_msg p2 d2 (buffer_at canbus_direction_t.dir_RX 1 7) =
          queue_get_msg (fun _ => 0) (fun _ => false) (buffer_at canbus_direction_t.dir_RX 1 7)) :=
  rx_drain_always_consumes (fun _ => 0) (fun _ => false) (buffer_at canbus_direction_t.dir_RX 1 7)
    rfl (by decide) (by decide) (by decide)

/-- C19: after a `canbus_init` whose storage allocation returned a non-zero
address, the host's hooks are `canbus_poll_realtime` and `onReportOptions` and
the static pointers hold the handlers installed before. From then on every
call of `canbus_poll_realtime` on a well-formed state calls the previous
real-time handler first and exactly once, on rate-limited ticks too, and keeps
the pointers; every call of `onReportOptions` calls the previous report
handler first and exactly once, for both values of its flag. -/
theorem hooks_chain_previous (nvs_alloc : Nat → Nat) (size : Nat) (grbl : grbl_t)
    (s0 : canbus_state) (halloc : nvs_alloc size ≠ 0) :
    (canbus_init nvs_alloc size grbl s0).1.on_execute_realtime =
        on_execute_realtime_ptr.canbus_poll_realtime ∧
      (canbus_init nvs_alloc size grbl s0).1.on_report_options =
        on_report_options_ptr.onReportOptions ∧
      (canbus_init nvs_alloc size grbl s0).2.1.on_execute_realtime = grbl.on_execute_realtime ∧
      (canbus_init nvs_alloc size grbl s0).2.1.on_report_options = grbl.on_report_options ∧
      (s0.wf → (canbus_init nvs_alloc size grbl s0).2.1.wf) ∧
      (∀ (env : poll_env) (s : canbus_state), s.wf →
        s.on_execute_realtime = grbl.on_execute_realtime →
        ∃ s1 ev, canbus_poll_realtime env s = some (s1, Event.on_execute_realtime :: ev) ∧
          realtime_handlers_called s (Event.on_execute_realtime :: ev) =
            [grbl.on_execute_realtime] ∧
          s1.wf ∧ s1.on_execute_realtime = grbl.on_execute_realtime ∧
          s1.on_report_options = s.on_report_options) ∧
      (∀ (ASCII_EOL : String) (newopt : Bool) (s : canbus_state),
        s.on_report_options = grbl.on_report_options →
        ∃ ev, onReportOptions ASCII_EOL newopt = Event.on_report_options newopt :: ev ∧
          report_handlers_called s (onReportOptions ASCII_EOL newopt) =
            [(grbl.on_report_options, newopt)]) := by
  have hinit : canbus_init nvs_alloc size grbl s0 =
      ({ on_report_options := on_report_options_ptr.onReportOptions
         on_execute_realtime := on_execute_realtime_ptr.canbus_poll_realtime },
       { s0 with nvs_address := nvs_alloc size
                 on_report_options := grbl.on_report_options
                 on_execute_realtime := grbl.on_execute_realtime },
       [Event.nvs_alloc size, Event.settings_register]) := by
    unfold canbus_init
    simp only []
    rw [if_pos halloc]
  rw [hinit]
  refine ⟨rfl, rfl, rfl, rfl, fun h => h, ?_, ?_⟩
  · intro env s hwf hptr
    obtain ⟨s1, ev, hpoll, hcalled, hwf1, hk1, hk2⟩ := canbus_poll_realtime_trace env s hwf
    obtain ⟨pre, hpre⟩ := prologue_events_head env
    refine ⟨s1, pre ++ ev, ?_, ?_, hwf1, hk1.trans hptr, hk2⟩
    · rw [hpoll, hpre]
      rfl
    · have h1 := realtime_handlers_called_prologue s env
      rw [hpre] at h1
      rw [← List.cons_append, realtime_handlers_called_append, h1, hcalled, hptr]
      rfl
  · intro eol newopt s hptr
    refine ⟨_, rfl, ?_⟩
    unfold onReportOptions
    cases newopt <;> simp [report_handlers_called, hptr]

theorem hooks_chain_previous_witness :
    ((canbus_init (fun _ => 64) 8 host_grbl initial_state).1.on_execute_realtime =
        on_execute_realtime_ptr.canbus_poll_realtime ∧
      (canbus_init (fun _ => 64) 8 host_grbl initial_state).2.1.on_execute_realtime =
        host_grbl.on_execute_realtime) ∧
    (∃ s1 ev, canbus_poll_realtime (busy_env 0) hosted_state =
          some (s1, Event.on_execute_realtime :: ev) ∧
        realtime_handlers_called hosted_state (Event.on_execute_realtime :: ev) =
          [host_grbl.on_execute_realtime] ∧
        s1.wf ∧ s1.on_execute_realtime = host_grbl.on_execute_realtime ∧
        s1.on_report_options = hosted_state.on_report_options) ∧
    (∃ ev, onReportOptions "" true = Event.on_report_options true :: ev ∧
        report_handlers_called hosted_state (onReportOptions "" true) =
          [(host_grbl.on_report_options, true)]) :=
  ⟨⟨(hooks_chain_previous (fun _ => 64) 8 host_grbl initial_state (by decide)).1,
      (hooks_chain_previous (fun _ => 64) 8 host_grbl initial_state (by decide)).2.2.1⟩,
    (hooks_chain_previous (fun _ => 64) 8 host_grbl initial_state (by decide)).2.2.2.2.2.1
      (busy_env 0) hosted_state ⟨⟨by decide, by decide⟩, ⟨by decide, by decide⟩, rfl, rfl⟩ rfl,
    (hooks_chain_previous (fun _ => 64) 8 host_grbl initial_state (by decide)).2.2.2.2.2.2
      "" true hosted_state rfl⟩

end Canbus
